import Mathlib

/-!
# Verification of the kenji-engine core

A shallow embedding, in Lean 4, of the algorithmic core of the kenji-engine
repository:

* `World` — the entity/component store (`src/packages/kenji/src/ecs/world.ts`),
  with JavaScript `Map`/`Set` semantics modelled by insertion-ordered
  association lists;
* `MovementSystem` (`src/packages/kenji/src/ecs/world.ts`, second section) and
  `CollisionSystem` (collision system source file);
* `Renderer` — the triple-buffered diffing character grid renderer;
* `GameEngine.gameLoop` — the fixed-timestep accumulator, with JavaScript
  number arithmetic modelled exactly by IEEE-754 binary64
  round-to-nearest-even on dyadic rationals;
* `InputManager` — the raw-keystream press/hold/release state machine with
  its `setTimeout`-based release timers, modelled as a discrete-event
  simulation.

JavaScript `number`s are modelled by `ℚ`; where a claim's truth depends on the
exact binary64 rounding of the source (the accumulator loop), the rounding is
applied explicitly via `fl`.
-/

namespace Kenji

/-! ## JavaScript `Map` / `Set` semantics

A JS `Map` preserves insertion order; `set` on an existing key updates in
place, `delete` removes the entry, `get` returns the value or `undefined`
(here `Option`). A JS `Set` likewise preserves insertion order.  Both are
modelled by lists. -/

/-- `Map.get`: first value bound to `k`, or `none`. -/
def mapGet {κ β : Type} [DecidableEq κ] : List (κ × β) → κ → Option β
  | [], _ => none
  | (k', v) :: rest, k => if k' = k then some v else mapGet rest k

/-- `Map.set`: update the value at `k` in place, or append a new binding. -/
def mapSet {κ β : Type} [DecidableEq κ] : List (κ × β) → κ → β → List (κ × β)
  | [], k, v => [(k, v)]
  | (k', v') :: rest, k, v =>
    if k' = k then (k', v) :: rest else (k', v') :: mapSet rest k v

/-- `Map.delete`: drop every binding of `k`. -/
def mapDel {κ β : Type} [DecidableEq κ] : List (κ × β) → κ → List (κ × β)
  | [], _ => []
  | (k', v) :: rest, k =>
    if k' = k then mapDel rest k else (k', v) :: mapDel rest k

/-- `Set.add`: append if absent (JS sets keep first-insertion order). -/
def setAdd {κ : Type} [DecidableEq κ] (s : List κ) (e : κ) : List κ :=
  if e ∈ s then s else s ++ [e]

/-- `Set.delete`: remove the element. -/
def setDel {κ : Type} [DecidableEq κ] : List κ → κ → List κ
  | [], _ => []
  | x :: xs, e => if x = e then setDel xs e else x :: setDel xs e

section MapLemmas

variable {κ β : Type} [DecidableEq κ]

theorem mapGet_mapSet_self (m : List (κ × β)) (k : κ) (v : β) :
    mapGet (mapSet m k v) k = some v := by
  induction m with
  | nil => simp [mapGet, mapSet]
  | cons p rest ih =>
    obtain ⟨k', v'⟩ := p
    by_cases h : k' = k <;> simp [mapGet, mapSet, h, ih]

theorem mapGet_mapSet_ne (m : List (κ × β)) (k k' : κ) (v : β) (h : k' ≠ k) :
    mapGet (mapSet m k' v) k = mapGet m k := by
  induction m with
  | nil => simp [mapGet, mapSet, h]
  | cons p rest ih =>
    obtain ⟨k'', v''⟩ := p
    by_cases h2 : k'' = k'
    · subst h2; simp [mapGet, mapSet, h, Ne.symm h]
    · by_cases h3 : k'' = k <;> simp [mapGet, mapSet, h2, h3, Ne.symm h, ih]

theorem mapGet_mapDel_self (m : List (κ × β)) (k : κ) :
    mapGet (mapDel m k) k = none := by
  induction m with
  | nil => simp [mapGet, mapDel]
  | cons p rest ih =>
    obtain ⟨k', v'⟩ := p
    by_cases h : k' = k <;> simp [mapGet, mapDel, h, ih]

theorem mapGet_mapDel_ne (m : List (κ × β)) (k k' : κ) (h : k' ≠ k) :
    mapGet (mapDel m k') k = mapGet m k := by
  induction m with
  | nil => simp [mapGet, mapDel]
  | cons p rest ih =>
    obtain ⟨k'', v''⟩ := p
    by_cases h2 : k'' = k'
    · subst h2; simp [mapGet, mapDel, h, Ne.symm h, ih]
    · by_cases h3 : k'' = k <;> simp [mapGet, mapDel, h2, h3, Ne.symm h, ih]

theorem mapGet_eq_some_mem {m : List (κ × β)} {k : κ} {v : β}
    (h : mapGet m k = some v) : (k, v) ∈ m := by
  induction m with
  | nil => simp [mapGet] at h
  | cons p rest ih =>
    obtain ⟨k', v'⟩ := p
    by_cases h2 : k' = k
    · subst h2
      simp [mapGet] at h
      simp [h]
    · simp [mapGet, h2] at h
      exact List.mem_cons_of_mem _ (ih h)

theorem mapDel_of_forall_ne {m : List (κ × β)} {k : κ}
    (h : ∀ p ∈ m, p.1 ≠ k) : mapDel m k = m := by
  induction m with
  | nil => rfl
  | cons p rest ih =>
    obtain ⟨k', v'⟩ := p
    have h1 : k' ≠ k := h (k', v') (List.mem_cons_self _ _)
    simp [mapDel, h1, ih fun p hp => h p (List.mem_cons_of_mem _ hp)]

theorem mapSet_self_of_mapGet {m : List (κ × β)} {k : κ} {v : β}
    (h : mapGet m k = some v) : mapSet m k v = m := by
  induction m with
  | nil => simp [mapGet] at h
  | cons p rest ih =>
    obtain ⟨k', v'⟩ := p
    by_cases h2 : k' = k
    · subst h2
      simp [mapGet] at h
      simp [mapSet, h]
    · simp [mapGet, h2] at h
      simp [mapSet, h2, ih h]

end MapLemmas

/-! ## World (`src/packages/kenji/src/ecs/world.ts`)

`World` is polymorphic in the component payload `α` (the source stores
loosely-typed records). `components` models
`Map<ComponentType, Map<Entity, Component>>`. -/

structure World (α : Type) where
  nextEntityId : Nat
  entities : List Nat
  components : List (String × List (Nat × α))
  entityPools : List Nat
deriving DecidableEq

namespace World

variable {α : Type}

/-- `new World()`. -/
def empty : World α := ⟨1, [], [], []⟩

/-- `createEntity()`: `entityPools.pop() ?? nextEntityId++`, then add to the
live set. JS `Array.pop` takes the last element. -/
def createEntity (w : World α) : Nat × World α :=
  match w.entityPools.getLast? with
  | some e =>
    (e, { w with
          entityPools := w.entityPools.dropLast
          entities := setAdd w.entities e })
  | none =>
    (w.nextEntityId, { w with
                       nextEntityId := w.nextEntityId + 1
                       entities := setAdd w.entities w.nextEntityId })

/-- `destroyEntity(e)`: no-op when unknown, else remove from the live set,
delete from every per-type component map, and push onto the pool. -/
def destroyEntity (w : World α) (e : Nat) : World α :=
  if e ∈ w.entities then
    { w with
      entities := setDel w.entities e
      components := w.components.map fun p => (p.1, mapDel p.2 e)
      entityPools := w.entityPools ++ [e] }
  else w

/-- `addComponent(e, type, c)`: no-op when `e` is not live; else create the
per-type map if missing and set the entry. -/
def addComponent (w : World α) (e : Nat) (t : String) (c : α) : World α :=
  if e ∈ w.entities then
    match mapGet w.components t with
    | some m => { w with components := mapSet w.components t (mapSet m e c) }
    | none => { w with components := mapSet w.components t (mapSet [] e c) }
  else w

/-- `removeComponent(e, type)`: delete the entry when the per-type map
exists; there is no liveness check in the source. -/
def removeComponent (w : World α) (e : Nat) (t : String) : World α :=
  match mapGet w.components t with
  | some m => { w with components := mapSet w.components t (mapDel m e) }
  | none => w

/-- `getComponent(e, type)`: `components.get(type)?.get(entity)`. -/
def getComponent (w : World α) (e : Nat) (t : String) : Option α :=
  match mapGet w.components t with
  | some m => mapGet m e
  | none => none

/-- `hasComponent(e, type)`: `components.get(type)?.has(entity) ?? false`. -/
def hasComponent (w : World α) (e : Nat) (t : String) : Bool :=
  match mapGet w.components t with
  | some m => (mapGet m e).isSome
  | none => false

/-- `query(...types)`: the live entities, in set-iteration (insertion)
order, holding every requested type. -/
def query (w : World α) (ts : List String) : List Nat :=
  w.entities.filter fun e => ts.all fun t => hasComponent w e t

/-- Every component entry belongs to a live entity.  This holds in every
state reachable through the `World` API (`addComponent` checks liveness and
`destroyEntity` purges all entries). -/
def WellFormed (w : World α) : Prop :=
  ∀ p ∈ w.components, ∀ q ∈ p.2, q.1 ∈ w.entities

instance (w : World α) : Decidable (WellFormed w) := by
  unfold WellFormed; infer_instance

end World

/-- `hasComponent` is `isSome` of `getComponent`. -/
theorem hasComponent_eq_isSome_getComponent {α : Type} (w : World α) (e : Nat) (t : String) :
    World.hasComponent w e t = (World.getComponent w e t).isSome := by
  unfold World.hasComponent World.getComponent
  cases mapGet w.components t <;> simp

/-- If `mapGet` finds nothing, no binding has that key. -/
theorem forall_ne_of_mapGet_eq_none {κ β : Type} [DecidableEq κ]
    {m : List (κ × β)} {k : κ} (h : mapGet m k = none) : ∀ p ∈ m, p.1 ≠ k := by
  induction m with
  | nil => simp
  | cons p rest ih =>
    obtain ⟨k', v'⟩ := p
    by_cases h2 : k' = k
    · simp [mapGet, h2] at h
    · simp [mapGet, h2] at h
      intro q hq
      rcases List.mem_cons.mp hq with hq | hq
      · subst hq; exact h2
      · exact ih h q hq

/-- `mapGet` through the per-type `mapDel` performed by `destroyEntity`. -/
theorem mapGet_map_mapDel {β : Type} (comps : List (String × List (Nat × β)))
    (e : Nat) (t : String) :
    mapGet (comps.map fun p => (p.1, mapDel p.2 e)) t
      = (mapGet comps t).map fun m => mapDel m e := by
  induction comps with
  | nil => simp [mapGet]
  | cons p rest ih =>
    obtain ⟨k', v'⟩ := p
    by_cases h : k' = t <;> simp [mapGet, h, ih]

/-! ## The World API as an operation language (for claim C6) -/

/-- One call of the mutating `World` API. -/
inductive WorldOp (α : Type) where
  | create
  | destroy (e : Nat)
  | add (e : Nat) (t : String) (c : α)
  | remove (e : Nat) (t : String)
deriving DecidableEq

/-- Apply one `World` API call. -/
def applyOp {α : Type} (w : World α) : WorldOp α → World α
  | .create => (World.createEntity w).2
  | .destroy e => World.destroyEntity w e
  | .add e t c => World.addComponent w e t c
  | .remove e t => World.removeComponent w e t

/-- Apply a sequence of `World` API calls, left to right. -/
def applyOps {α : Type} (w : World α) (ops : List (WorldOp α)) : World α :=
  ops.foldl applyOp w

theorem mem_setDel_of_ne {κ : Type} [DecidableEq κ] {l : List κ} {e e' : κ}
    (h : e ∈ l) (hne : e ≠ e') : e ∈ setDel l e' := by
  induction l with
  | nil => simp at h
  | cons x xs ih =>
    rcases List.mem_cons.mp h with h | h
    · subst h; simp [setDel, hne]
    · by_cases hx : x = e' <;> simp [setDel, hx, ih h]

theorem mem_setAdd {κ : Type} [DecidableEq κ] {l : List κ} {e : κ} (e' : κ)
    (h : e ∈ l) : e ∈ setAdd l e' := by
  unfold setAdd
  split <;> simp [h]

/-- `getComponent` as an `Option.bind` over the components table. -/
theorem getComponent_eq_bind {α : Type} (w : World α) (e : Nat) (t : String) :
    World.getComponent w e t = (mapGet w.components t).bind fun m => mapGet m e := by
  unfold World.getComponent
  cases mapGet w.components t <;> rfl

/-- `entities` after `createEntity`. -/
theorem entities_createEntity {α : Type} (w : World α) :
    ∃ e', (World.createEntity w).2.entities = setAdd w.entities e' := by
  unfold World.createEntity
  cases w.entityPools.getLast? <;> exact ⟨_, rfl⟩

/-- `components` are untouched by `createEntity`. -/
theorem components_createEntity {α : Type} (w : World α) :
    (World.createEntity w).2.components = w.components := by
  unfold World.createEntity
  cases w.entityPools.getLast? <;> rfl

/-- `entities` are untouched by `addComponent`. -/
theorem entities_addComponent {α : Type} (w : World α) (e : Nat) (t : String) (c : α) :
    (World.addComponent w e t c).entities = w.entities := by
  unfold World.addComponent
  split
  · cases mapGet w.components t <;> rfl
  · rfl

/-- `entities` are untouched by `removeComponent`. -/
theorem entities_removeComponent {α : Type} (w : World α) (e : Nat) (t : String) :
    (World.removeComponent w e t).entities = w.entities := by
  unfold World.removeComponent
  cases mapGet w.components t <;> rfl

/-- Liveness of `e` survives any API call other than `destroy e`. -/
theorem mem_entities_applyOp {α : Type} {w : World α} {e : Nat} {op : WorldOp α}
    (he : e ∈ w.entities) (hop : op ≠ .destroy e) : e ∈ (applyOp w op).entities := by
  cases op with
  | create =>
    show e ∈ (World.createEntity w).2.entities
    obtain ⟨e', h⟩ := entities_createEntity w
    rw [h]
    exact mem_setAdd _ he
  | destroy e' =>
    show e ∈ (World.destroyEntity w e').entities
    have hne : e ≠ e' := fun h => hop (by rw [h])
    unfold World.destroyEntity
    split
    · simpa using mem_setDel_of_ne he hne
    · exact he
  | add e' t' c' =>
    show e ∈ (World.addComponent w e' t' c').entities
    rw [entities_addComponent]
    exact he
  | remove e' t' =>
    show e ∈ (World.removeComponent w e' t').entities
    rw [entities_removeComponent]
    exact he

/-- `getComponent e t` is unchanged by any API call that is not
`destroy e`, `remove e t` or an overwriting `add e t _`. -/
theorem getComponent_applyOp {α : Type} (w : World α) (e : Nat) (t : String)
    (op : WorldOp α) (hop : op ≠ .destroy e ∧ op ≠ .remove e t ∧ ∀ c', op ≠ .add e t c') :
    World.getComponent (applyOp w op) e t = World.getComponent w e t := by
  obtain ⟨hd, hr, ha⟩ := hop
  cases op with
  | create =>
    show World.getComponent (World.createEntity w).2 e t = _
    rw [getComponent_eq_bind, getComponent_eq_bind, components_createEntity]
  | destroy e' =>
    show World.getComponent (World.destroyEntity w e') e t = _
    have hne : e' ≠ e := fun h => hd (by rw [h])
    unfold World.destroyEntity
    split
    · rw [getComponent_eq_bind, getComponent_eq_bind]
      show (mapGet (w.components.map fun p => (p.1, mapDel p.2 e')) t).bind _ = _
      rw [mapGet_map_mapDel]
      cases mapGet w.components t with
      | none => rfl
      | some m => simp [mapGet_mapDel_ne m e e' hne]
    · rfl
  | add e' t' c' =>
    show World.getComponent (World.addComponent w e' t' c') e t = _
    unfold World.addComponent
    split
    · rw [getComponent_eq_bind]
      by_cases ht : t' = t
      · subst ht
        have hne : e' ≠ e := fun h => ha c' (by rw [h])
        cases hm : mapGet w.components t' with
        | none =>
          simp [hm, mapGet_mapSet_self, mapGet_mapSet_ne [] e e' c' hne,
                mapGet, hne, getComponent_eq_bind]
        | some m =>
          simp [hm, mapGet_mapSet_self, mapGet_mapSet_ne m e e' c' hne,
                hne, getComponent_eq_bind]
      · cases hm : mapGet w.components t' with
        | none => simp [mapGet_mapSet_ne _ t t' _ ht, getComponent_eq_bind]
        | some m => simp [mapGet_mapSet_ne _ t t' _ ht, getComponent_eq_bind]
    · rfl
  | remove e' t' =>
    show World.getComponent (World.removeComponent w e' t') e t = _
    unfold World.removeComponent
    cases hm : mapGet w.components t' with
    | none => rfl
    | some m =>
      rw [getComponent_eq_bind, getComponent_eq_bind]
      by_cases ht : t' = t
      · subst ht
        have hne : e' ≠ e := fun h => hr (by rw [h])
        simp [hm, mapGet_mapSet_self, mapGet_mapDel_ne m e e' hne]
      · simp [mapGet_mapSet_ne _ t t' _ ht]

/-- `getComponent` right after an `addComponent` on a live entity. -/
theorem getComponent_addComponent_self {α : Type} (w : World α) (e : Nat) (t : String)
    (c : α) (he : e ∈ w.entities) :
    World.getComponent (World.addComponent w e t c) e t = some c := by
  unfold World.addComponent
  rw [if_pos he]
  cases hm : mapGet w.components t with
  | none => simp [getComponent_eq_bind, mapGet_mapSet_self]
  | some m => simp [getComponent_eq_bind, mapGet_mapSet_self]

/-- `getComponent e t` right after `removeComponent e t` is the sentinel. -/
theorem getComponent_removeComponent_self {α : Type} (w : World α) (e : Nat) (t : String) :
    World.getComponent (World.removeComponent w e t) e t = none := by
  unfold World.removeComponent
  cases hm : mapGet w.components t with
  | none => simp [getComponent_eq_bind, hm]
  | some m => simp [getComponent_eq_bind, mapGet_mapSet_self, mapGet_mapDel_self]

/-- `getComponent e t` right after `destroyEntity e` (live `e`) is the sentinel. -/
theorem getComponent_destroyEntity_self {α : Type} (w : World α) (e : Nat) (t : String)
    (he : e ∈ w.entities) :
    World.getComponent (World.destroyEntity w e) e t = none := by
  unfold World.destroyEntity
  rw [if_pos he]
  rw [getComponent_eq_bind]
  show (mapGet (w.components.map fun p => (p.1, mapDel p.2 e)) t).bind _ = _
  rw [mapGet_map_mapDel]
  cases mapGet w.components t with
  | none => rfl
  | some m => simp [mapGet_mapDel_self]


/-- `getComponent e t = some c` is preserved by any op sequence avoiding
`destroy e`, `remove e t` and `add e t _`. -/
theorem getComponent_applyOps {α : Type} (w : World α) (e : Nat) (t : String)
    (ops : List (WorldOp α))
    (hops : ∀ op ∈ ops, op ≠ .destroy e ∧ op ≠ .remove e t ∧ ∀ c', op ≠ .add e t c') :
    World.getComponent (applyOps w ops) e t = World.getComponent w e t := by
  induction ops generalizing w with
  | nil => rfl
  | cons op rest ih =>
    have h1 := hops op (List.mem_cons_self _ _)
    have h2 : ∀ op' ∈ rest, op' ≠ WorldOp.destroy e ∧ op' ≠ WorldOp.remove e t ∧
        ∀ c', op' ≠ WorldOp.add e t c' :=
      fun op' hop' => hops op' (List.mem_cons_of_mem _ hop')
    show World.getComponent (applyOps (applyOp w op) rest) e t = _
    rw [ih (applyOp w op) h2, getComponent_applyOp w e t op h1]

/-- Liveness of `e` is preserved by any op sequence avoiding `destroy e`. -/
theorem mem_entities_applyOps {α : Type} {w : World α} {e : Nat}
    {ops : List (WorldOp α)} (he : e ∈ w.entities)
    (hops : ∀ op ∈ ops, op ≠ .destroy e) : e ∈ (applyOps w ops).entities := by
  induction ops generalizing w with
  | nil => exact he
  | cons op rest ih =>
    show e ∈ (applyOps (applyOp w op) rest).entities
    exact ih (mem_entities_applyOp he (hops op (List.mem_cons_self _ _)))
      (fun op' hop' => hops op' (List.mem_cons_of_mem _ hop'))

/-- C6, counterexample to the claim as stated: re-adding a component of the
same type on the same live entity is a sequence of World operations that
neither removes `T` from `e` nor destroys `e`, yet afterwards
`getComponent(e,T)` no longer returns the first datum `d` (it returns the
overwriting datum). The claim omits the overwrite case. -/
theorem C6_overwrite_counterexample :
    (∀ op ∈ [WorldOp.add 1 "T" (1 : Nat)],
        op ≠ WorldOp.remove 1 "T" ∧ op ≠ WorldOp.destroy 1) ∧
    World.getComponent
      (applyOps
        (World.addComponent ((World.createEntity (World.empty (α := Nat))).2) 1 "T" 0)
        [WorldOp.add 1 "T" 1]) 1 "T" ≠ some 0 := by
  constructor
  · decide
  · decide

/-- C6 (amended): for a live entity `e`, after `addComponent(e,T,d)`,
`getComponent(e,T)` returns `d` and `hasComponent(e,T)` is true under any
subsequent sequence of World operations that does not remove `T` from `e`,
destroy `e`, or overwrite `T` on `e` with another `addComponent`; and after a
subsequent `removeComponent(e,T)` or `destroyEntity(e)`, `hasComponent(e,T)`
is false and `getComponent(e,T)` returns the absent sentinel. -/
theorem C6_component_lifecycle {α : Type} (w : World α) (e : Nat) (t : String)
    (c : α) (ops : List (WorldOp α)) (he : e ∈ w.entities)
    (hops : ∀ op ∈ ops, op ≠ WorldOp.destroy e ∧ op ≠ WorldOp.remove e t ∧
      ∀ c', op ≠ WorldOp.add e t c') :
    (World.getComponent (applyOps (World.addComponent w e t c) ops) e t = some c ∧
     World.hasComponent (applyOps (World.addComponent w e t c) ops) e t = true) ∧
    (World.getComponent
        (World.removeComponent (applyOps (World.addComponent w e t c) ops) e t) e t
        = none ∧
     World.hasComponent
        (World.removeComponent (applyOps (World.addComponent w e t c) ops) e t) e t
        = false) ∧
    (World.getComponent
        (World.destroyEntity (applyOps (World.addComponent w e t c) ops) e) e t
        = none ∧
     World.hasComponent
        (World.destroyEntity (applyOps (World.addComponent w e t c) ops) e) e t
        = false) := by
  have hget : World.getComponent (applyOps (World.addComponent w e t c) ops) e t
      = some c := by
    rw [getComponent_applyOps _ _ _ _ hops, getComponent_addComponent_self _ _ _ _ he]
  have he' : e ∈ (applyOps (World.addComponent w e t c) ops).entities := by
    have h0 : e ∈ (World.addComponent w e t c).entities := by
      rw [entities_addComponent]; exact he
    exact mem_entities_applyOps h0 (fun op hop => (hops op hop).1)
  refine ⟨⟨hget, ?_⟩, ⟨getComponent_removeComponent_self _ _ _, ?_⟩,
    ⟨getComponent_destroyEntity_self _ _ _ he', ?_⟩⟩
  · rw [hasComponent_eq_isSome_getComponent, hget]; rfl
  · rw [hasComponent_eq_isSome_getComponent, getComponent_removeComponent_self]; rfl
  · rw [hasComponent_eq_isSome_getComponent, getComponent_destroyEntity_self _ _ _ he']
    rfl

/-- Witness for `C6_component_lifecycle` at a concrete world: entity 1 is
live, datum `0` is stored under type `"T"`, and the op sequence creates a
second entity, gives it a component, removes that component and destroys it —
none of which touches `(1, "T")`. -/
theorem C6_component_lifecycle_witness :
    ((1 ∈ ((World.createEntity (World.empty (α := Nat))).2).entities) ∧
     (∀ op ∈ [WorldOp.create, WorldOp.add 2 "U" (7 : Nat), WorldOp.remove 2 "U",
              WorldOp.destroy 2],
        op ≠ WorldOp.destroy 1 ∧ op ≠ WorldOp.remove 1 "T" ∧
        ∀ c', op ≠ WorldOp.add 1 "T" c')) ∧
    ((World.getComponent
        (applyOps (World.addComponent ((World.createEntity (World.empty (α := Nat))).2)
          1 "T" 0)
          [WorldOp.create, WorldOp.add 2 "U" 7, WorldOp.remove 2 "U", WorldOp.destroy 2])
        1 "T" = some 0 ∧
      World.hasComponent
        (applyOps (World.addComponent ((World.createEntity (World.empty (α := Nat))).2)
          1 "T" 0)
          [WorldOp.create, WorldOp.add 2 "U" 7, WorldOp.remove 2 "U", WorldOp.destroy 2])
        1 "T" = true) ∧
     (World.getComponent
        (World.removeComponent
          (applyOps (World.addComponent ((World.createEntity (World.empty (α := Nat))).2)
            1 "T" 0)
            [WorldOp.create, WorldOp.add 2 "U" 7, WorldOp.remove 2 "U", WorldOp.destroy 2])
          1 "T") 1 "T" = none ∧
      World.hasComponent
        (World.removeComponent
          (applyOps (World.addComponent ((World.createEntity (World.empty (α := Nat))).2)
            1 "T" 0)
            [WorldOp.create, WorldOp.add 2 "U" 7, WorldOp.remove 2 "U", WorldOp.destroy 2])
          1 "T") 1 "T" = false) ∧
     (World.getComponent
        (World.destroyEntity
          (applyOps (World.addComponent ((World.createEntity (World.empty (α := Nat))).2)
            1 "T" 0)
            [WorldOp.create, WorldOp.add 2 "U" 7, WorldOp.remove 2 "U", WorldOp.destroy 2])
          1) 1 "T" = none ∧
      World.hasComponent
        (World.destroyEntity
          (applyOps (World.addComponent ((World.createEntity (World.empty (α := Nat))).2)
            1 "T" 0)
            [WorldOp.create, WorldOp.add 2 "U" 7, WorldOp.remove 2 "U", WorldOp.destroy 2])
          1) 1 "T" = false)) :=
  ⟨⟨by decide, by simp⟩,
   C6_component_lifecycle ((World.createEntity (World.empty (α := Nat))).2) 1 "T" 0
     [WorldOp.create, WorldOp.add 2 "U" 7, WorldOp.remove 2 "U", WorldOp.destroy 2]
     (by decide) (by simp)⟩

/-- C7: `query(T1..Tn)` returns, as a set, exactly the live entities holding
every requested type, and `query()` with no types returns exactly the live
entities. -/
theorem C7_query_exact {α : Type} (w : World α) (ts : List String) (e : Nat) :
    (e ∈ World.query w ts ↔
      e ∈ w.entities ∧ ∀ t ∈ ts, World.hasComponent w e t = true) ∧
    World.query w [] = w.entities := by
  constructor
  · unfold World.query
    rw [List.mem_filter]
    simp [List.all_eq_true]
  · unfold World.query
    simp

/-- C8: operations on an invalid reference are silent no-ops that leave the
`World` value unchanged, and `getComponent` on an invalid reference returns
the absent sentinel. `WellFormed` (components only on live entities) holds in
every state reachable through the API. -/
theorem C8_invalid_reference_noop {α : Type} (w : World α) (e : Nat) (t : String)
    (c : α) (hwf : World.WellFormed w) :
    (e ∉ w.entities →
      World.destroyEntity w e = w ∧
      World.addComponent w e t c = w ∧
      World.removeComponent w e t = w ∧
      World.getComponent w e t = none) ∧
    (World.hasComponent w e t = false →
      World.removeComponent w e t = w ∧
      World.getComponent w e t = none) := by
  have hkey : e ∉ w.entities → ∀ m, mapGet w.components t = some m →
      ∀ p ∈ m, p.1 ≠ e := by
    intro he m hm p hp hpe
    exact he (hpe ▸ hwf (t, m) (mapGet_eq_some_mem hm) p hp)
  have hremove : ∀ m, mapGet w.components t = some m → (∀ p ∈ m, p.1 ≠ e) →
      World.removeComponent w e t = w := by
    intro m hm hne
    unfold World.removeComponent
    rw [hm]
    show { w with components := mapSet w.components t (mapDel m e) } = w
    rw [mapDel_of_forall_ne hne, mapSet_self_of_mapGet hm]
  have hgetnone : ∀ m, mapGet w.components t = some m → (∀ p ∈ m, p.1 ≠ e) →
      World.getComponent w e t = none := by
    intro m hm hne
    rw [getComponent_eq_bind, hm]
    show mapGet m e = none
    cases hme : mapGet m e with
    | none => rfl
    | some v => exact absurd rfl (hne (e, v) (mapGet_eq_some_mem hme))
  constructor
  · intro he
    refine ⟨?_, ?_, ?_, ?_⟩
    · unfold World.destroyEntity
      rw [if_neg he]
    · unfold World.addComponent
      rw [if_neg he]
    · cases hm : mapGet w.components t with
      | none => unfold World.removeComponent; rw [hm]
      | some m => exact hremove m hm (hkey he m hm)
    · cases hm : mapGet w.components t with
      | none => rw [getComponent_eq_bind, hm]; rfl
      | some m => exact hgetnone m hm (hkey he m hm)
  · intro hhas
    cases hm : mapGet w.components t with
    | none =>
      constructor
      · unfold World.removeComponent; rw [hm]
      · rw [getComponent_eq_bind, hm]; rfl
    | some m =>
      have hme : mapGet m e = none := by
        unfold World.hasComponent at hhas
        rw [hm] at hhas
        have hhas' : (mapGet m e).isSome = false := hhas
        exact Option.not_isSome_iff_eq_none.mp (by simp [hhas'])
      have hne : ∀ p ∈ m, p.1 ≠ e := forall_ne_of_mapGet_eq_none hme
      exact ⟨hremove m hm hne, hgetnone m hm hne⟩

/-- Witness for `C8_invalid_reference_noop`: a well-formed world with one
live entity `1` carrying a `"T"` component, probed at the stale id `7`. -/
theorem C8_invalid_reference_noop_witness :
    (World.WellFormed (World.mk 2 [1] [("T", [(1, 5)])] [] : World Nat)) ∧
    ((7 ∉ (World.mk 2 [1] [("T", [(1, 5)])] [] : World Nat).entities →
      World.destroyEntity (World.mk 2 [1] [("T", [(1, 5)])] []) 7
        = World.mk 2 [1] [("T", [(1, 5)])] [] ∧
      World.addComponent (World.mk 2 [1] [("T", [(1, 5)])] []) 7 "T" 0
        = World.mk 2 [1] [("T", [(1, 5)])] [] ∧
      World.removeComponent (World.mk 2 [1] [("T", [(1, 5)])] []) 7 "T"
        = World.mk 2 [1] [("T", [(1, 5)])] [] ∧
      World.getComponent (World.mk 2 [1] [("T", [(1, 5)])] []) 7 "T" = none) ∧
     (World.hasComponent (World.mk 2 [1] [("T", [(1, 5)])] []) 7 "T" = false →
      World.removeComponent (World.mk 2 [1] [("T", [(1, 5)])] []) 7 "T"
        = World.mk 2 [1] [("T", [(1, 5)])] [] ∧
      World.getComponent (World.mk 2 [1] [("T", [(1, 5)])] []) 7 "T" = none)) :=
  ⟨by decide, C8_invalid_reference_noop (World.mk 2 [1] [("T", [(1, 5)])] []) 7 "T" 0
    (by decide)⟩

/-! ## Components (`src/components`)

The component records used by the systems, and the `ComponentTypes` string
tags. `Comp` is the closed sum of the record shapes the systems store; the
TypeScript `as Position | undefined` casts are modelled by the variant
projections below. -/

structure Position where
  x : ℚ
  y : ℚ
deriving DecidableEq

structure Velocity where
  vx : ℚ
  vy : ℚ
deriving DecidableEq

structure Dimensions where
  width : ℚ
  height : ℚ
deriving DecidableEq

structure Collider where
  type : String
  active : Bool
deriving DecidableEq

namespace ComponentTypes

def Position : String := "Position"
def Velocity : String := "Velocity"
def Dimensions : String := "Dimensions"
def Sprite : String := "Sprite"
def Collider : String := "Collider"

end ComponentTypes

/-- A stored component record. -/
inductive Comp where
  | position (p : Position)
  | velocity (v : Velocity)
  | dimensions (d : Dimensions)
  | collider (c : Collider)
  | sprite (chars color : String)
deriving DecidableEq

def Comp.asPosition : Comp → Option Position
  | .position p => some p
  | _ => none

def Comp.asVelocity : Comp → Option Velocity
  | .velocity v => some v
  | _ => none

def Comp.asDimensions : Comp → Option Dimensions
  | .dimensions d => some d
  | _ => none

def Comp.asCollider : Comp → Option Collider
  | .collider c => some c
  | _ => none

/-! ## CollisionSystem -/

/-- `CollisionSystem.checkCollision`: AABB overlap with open far edges. -/
def checkCollision (pos1 : Position) (dim1 : Dimensions)
    (pos2 : Position) (dim2 : Dimensions) : Bool :=
  decide (pos1.x < pos2.x + dim2.width) &&
  decide (pos1.x + dim1.width > pos2.x) &&
  decide (pos1.y < pos2.y + dim2.height) &&
  decide (pos1.y + dim1.height > pos2.y)

/-- C4: `checkCollision` is exactly the open-interval AABB test; rectangles
sharing only a boundary edge (A x-extent [0,10), B x-extent [10,20), same
y-range) do not collide, while an overlap of 1 unit does. -/
theorem C4_checkCollision_open_intervals :
    (∀ (p1 : Position) (d1 : Dimensions) (p2 : Position) (d2 : Dimensions),
      checkCollision p1 d1 p2 d2 = true ↔
        (p1.x < p2.x + d2.width ∧ p1.x + d1.width > p2.x ∧
         p1.y < p2.y + d2.height ∧ p1.y + d1.height > p2.y)) ∧
    checkCollision ⟨0, 0⟩ ⟨10, 5⟩ ⟨10, 0⟩ ⟨10, 5⟩ = false ∧
    checkCollision ⟨0, 0⟩ ⟨10, 5⟩ ⟨9, 0⟩ ⟨10, 5⟩ = true := by
  refine ⟨?_, by norm_num [checkCollision], by norm_num [checkCollision]⟩
  intro p1 d1 p2 d2
  simp [checkCollision, and_assoc]

/-- The component lookups `world.getComponent(e, T) as X | undefined`
performed by the systems: presence plus the variant projection. -/
def getPos (w : World Comp) (e : Nat) : Option Position :=
  (World.getComponent w e ComponentTypes.Position).bind Comp.asPosition

def getVel (w : World Comp) (e : Nat) : Option Velocity :=
  (World.getComponent w e ComponentTypes.Velocity).bind Comp.asVelocity

def getDim (w : World Comp) (e : Nat) : Option Dimensions :=
  (World.getComponent w e ComponentTypes.Dimensions).bind Comp.asDimensions

def getCol (w : World Comp) (e : Nat) : Option Collider :=
  (World.getComponent w e ComponentTypes.Collider).bind Comp.asCollider

/-- The guard `if (!pos || !dim || !col || !col.active) continue` of
`CollisionSystem.update`, packaged: the position and dimensions of an entity
that has all three components with an active collider. -/
def colliderData (w : World Comp) (e : Nat) : Option (Position × Dimensions) :=
  match getPos w e, getDim w e, getCol w e with
  | some p, some d, some c => if c.active then some (p, d) else none
  | _, _, _ => none

/-- Inner `j`-loop of `CollisionSystem.update`: for a fixed `entity1` with
data `(p1, d1)`, scan the remaining entities and record each
`handleCollision` invocation in order. -/
def innerScan (w : World Comp) (e1 : Nat) (p1 : Position) (d1 : Dimensions) :
    List Nat → List (Nat × Nat)
  | [] => []
  | e2 :: rest =>
    match colliderData w e2 with
    | some (p2, d2) =>
      if checkCollision p1 d1 p2 d2 then
        (e1, e2) :: innerScan w e1 p1 d1 rest
      else innerScan w e1 p1 d1 rest
    | none => innerScan w e1 p1 d1 rest

/-- Outer `i`-loop of `CollisionSystem.update`. -/
def outerScan (w : World Comp) : List Nat → List (Nat × Nat)
  | [] => []
  | e1 :: rest =>
    match colliderData w e1 with
    | some (p1, d1) => innerScan w e1 p1 d1 rest ++ outerScan w rest
    | none => outerScan w rest

/-- `CollisionSystem.update(world)`, observed through the list of
`handleCollision(world, entity1, entity2)` invocations it makes, in order. -/
def collisionUpdate (w : World Comp) : List (Nat × Nat) :=
  outerScan w (World.query w
    [ComponentTypes.Position, ComponentTypes.Dimensions, ComponentTypes.Collider])

theorem mem_innerScan {w : World Comp} {e1 : Nat} {p1 : Position} {d1 : Dimensions}
    {l : List Nat} {a b : Nat} :
    (a, b) ∈ innerScan w e1 p1 d1 l ↔
      a = e1 ∧ b ∈ l ∧ ∃ p2 d2, colliderData w b = some (p2, d2) ∧
        checkCollision p1 d1 p2 d2 = true := by
  induction l with
  | nil => simp [innerScan]
  | cons e2 rest ih =>
    unfold innerScan
    cases hc : colliderData w e2 with
    | some pd =>
      obtain ⟨p2, d2⟩ := pd
      show (a, b) ∈ (if checkCollision p1 d1 p2 d2 then
          (e1, e2) :: innerScan w e1 p1 d1 rest else innerScan w e1 p1 d1 rest) ↔ _
      by_cases hcol : checkCollision p1 d1 p2 d2 = true
      · rw [if_pos hcol]
        simp only [List.mem_cons, Prod.mk.injEq, ih]
        constructor
        · rintro (⟨ha, hb⟩ | ⟨ha, hb, hC⟩)
          · exact ⟨ha, Or.inl hb, p2, d2, hb ▸ hc, hcol⟩
          · exact ⟨ha, Or.inr hb, hC⟩
        · rintro ⟨ha, hb | hb, hC⟩
          · exact Or.inl ⟨ha, hb⟩
          · exact Or.inr ⟨ha, hb, hC⟩
      · rw [if_neg hcol]
        rw [ih]
        constructor
        · rintro ⟨ha, hb, hC⟩
          exact ⟨ha, List.mem_cons_of_mem _ hb, hC⟩
        · rintro ⟨ha, hb, p2', d2', hcd, hcol'⟩
          rcases List.mem_cons.mp hb with hb | hb
          · rw [hb, hc] at hcd
            obtain ⟨hp, hd⟩ := Prod.mk.injEq .. ▸ Option.some.inj hcd
            rw [← hp, ← hd] at hcol'
            exact absurd hcol' hcol
          · exact ⟨ha, hb, p2', d2', hcd, hcol'⟩
    | none =>
      show (a, b) ∈ innerScan w e1 p1 d1 rest ↔ _
      rw [ih]
      constructor
      · rintro ⟨ha, hb, hC⟩
        exact ⟨ha, List.mem_cons_of_mem _ hb, hC⟩
      · rintro ⟨ha, hb, p2', d2', hcd, hcol'⟩
        rcases List.mem_cons.mp hb with hb | hb
        · rw [hb, hc] at hcd
          exact absurd hcd (by simp)
        · exact ⟨ha, hb, p2', d2', hcd, hcol'⟩

theorem innerScan_nodup {w : World Comp} {e1 : Nat} {p1 : Position} {d1 : Dimensions}
    {l : List Nat} (hl : l.Nodup) : (innerScan w e1 p1 d1 l).Nodup := by
  induction l with
  | nil => simp [innerScan]
  | cons e2 rest ih =>
    obtain ⟨he2, hrest⟩ := List.nodup_cons.mp hl
    unfold innerScan
    cases hc : colliderData w e2 with
    | some pd =>
      obtain ⟨p2, d2⟩ := pd
      show (if checkCollision p1 d1 p2 d2 then
          (e1, e2) :: innerScan w e1 p1 d1 rest else innerScan w e1 p1 d1 rest).Nodup
      by_cases hcol : checkCollision p1 d1 p2 d2 = true
      · rw [if_pos hcol]
        refine List.nodup_cons.mpr ⟨?_, ih hrest⟩
        intro hmem
        obtain ⟨_, hb, _⟩ := mem_innerScan.mp hmem
        exact he2 hb
      · rw [if_neg hcol]
        exact ih hrest
    | none =>
      show (innerScan w e1 p1 d1 rest).Nodup
      exact ih hrest

theorem mem_outerScan {w : World Comp} {l : List Nat} (hl : l.Nodup) {a b : Nat} :
    (a, b) ∈ outerScan w l ↔
      ([a, b].Sublist l ∧
       ∃ p1 d1, colliderData w a = some (p1, d1) ∧
       ∃ p2 d2, colliderData w b = some (p2, d2) ∧
         checkCollision p1 d1 p2 d2 = true) := by
  induction l with
  | nil => simp [outerScan]
  | cons e1 rest ih =>
    obtain ⟨he1, hrest⟩ := List.nodup_cons.mp hl
    unfold outerScan
    cases hc : colliderData w e1 with
    | some pd =>
      obtain ⟨p1, d1⟩ := pd
      show (a, b) ∈ innerScan w e1 p1 d1 rest ++ outerScan w rest ↔ _
      rw [List.mem_append, mem_innerScan, ih hrest]
      constructor
      · rintro (⟨ha, hb, p2, d2, hcd, hcol⟩ | ⟨hsub, hC⟩)
        · refine ⟨?_, p1, d1, ?_, p2, d2, hcd, hcol⟩
          · rw [ha]
            exact (List.singleton_sublist.mpr hb).cons₂ e1
          · rw [ha]
            exact hc
        · exact ⟨hsub.cons e1, hC⟩
      · rintro ⟨hsub, pa, da, hca, pb, db, hcb, hcol⟩
        cases hsub with
        | cons _ h => exact Or.inr ⟨h, pa, da, hca, pb, db, hcb, hcol⟩
        | cons₂ _ h =>
          rw [hc] at hca
          obtain ⟨hp, hd⟩ := Prod.mk.injEq .. ▸ Option.some.inj hca
          refine Or.inl ⟨rfl, List.singleton_sublist.mp h, pb, db, hcb, ?_⟩
          rw [hp, hd]
          exact hcol
    | none =>
      show (a, b) ∈ outerScan w rest ↔ _
      rw [ih hrest]
      constructor
      · rintro ⟨hsub, hC⟩
        exact ⟨hsub.cons e1, hC⟩
      · rintro ⟨hsub, pa, da, hca, hC⟩
        cases hsub with
        | cons _ h => exact ⟨h, pa, da, hca, hC⟩
        | cons₂ _ h =>
          rw [hc] at hca
          exact absurd hca (by simp)

theorem outerScan_nodup {w : World Comp} {l : List Nat} (hl : l.Nodup) :
    (outerScan w l).Nodup := by
  induction l with
  | nil => simp [outerScan]
  | cons e1 rest ih =>
    obtain ⟨he1, hrest⟩ := List.nodup_cons.mp hl
    unfold outerScan
    cases hc : colliderData w e1 with
    | some pd =>
      obtain ⟨p1, d1⟩ := pd
      show (innerScan w e1 p1 d1 rest ++ outerScan w rest).Nodup
      refine List.Nodup.append (innerScan_nodup hrest) (ih hrest) ?_
      intro pr hpr1 hpr2
      obtain ⟨a, b⟩ := pr
      obtain ⟨ha, _, _⟩ := mem_innerScan.mp hpr1
      obtain ⟨hsub, _⟩ := (mem_outerScan hrest).mp hpr2
      subst ha
      exact he1 (hsub.subset (List.mem_cons_self _ _))
    | none =>
      show (outerScan w rest).Nodup
      exact ih hrest

/-- C5: `CollisionSystem.update(world)` invokes the collision-response hook
exactly once per pair of distinct entities that both carry position,
dimensions and an active collider and whose boxes overlap — each pair taken
in `i < j` query order (`[a, b]` a sublist of the query result), with no
duplicates and no invocation for non-overlapping or inactive pairs. -/
theorem C5_collision_pairs (w : World Comp) (hnd : w.entities.Nodup) :
    (collisionUpdate w).Nodup ∧
    ∀ a b : Nat, (a, b) ∈ collisionUpdate w ↔
      ([a, b].Sublist (World.query w [ComponentTypes.Position,
          ComponentTypes.Dimensions, ComponentTypes.Collider]) ∧
       ∃ p1 d1, colliderData w a = some (p1, d1) ∧
       ∃ p2 d2, colliderData w b = some (p2, d2) ∧
         checkCollision p1 d1 p2 d2 = true) := by
  have hq : (World.query w [ComponentTypes.Position, ComponentTypes.Dimensions,
      ComponentTypes.Collider]).Nodup := List.Nodup.filter _ hnd
  exact ⟨outerScan_nodup hq, fun a b => mem_outerScan hq⟩

/-- Witness for `C5_collision_pairs`: a Pong-like world — ball `1` and
paddle `2` overlap and both have active colliders, entity `3` is inactive. -/
theorem C5_collision_pairs_witness :
    ((World.mk 4 [1, 2, 3]
      [("Position", [(1, Comp.position ⟨0, 0⟩), (2, Comp.position ⟨5, 0⟩),
                     (3, Comp.position ⟨100, 100⟩)]),
       ("Dimensions", [(1, Comp.dimensions ⟨10, 5⟩), (2, Comp.dimensions ⟨10, 5⟩),
                       (3, Comp.dimensions ⟨10, 5⟩)]),
       ("Collider", [(1, Comp.collider ⟨"AABB", true⟩), (2, Comp.collider ⟨"AABB", true⟩),
                     (3, Comp.collider ⟨"AABB", false⟩)])]
      [] : World Comp).entities.Nodup) ∧
    ((collisionUpdate (World.mk 4 [1, 2, 3]
      [("Position", [(1, Comp.position ⟨0, 0⟩), (2, Comp.position ⟨5, 0⟩),
                     (3, Comp.position ⟨100, 100⟩)]),
       ("Dimensions", [(1, Comp.dimensions ⟨10, 5⟩), (2, Comp.dimensions ⟨10, 5⟩),
                       (3, Comp.dimensions ⟨10, 5⟩)]),
       ("Collider", [(1, Comp.collider ⟨"AABB", true⟩), (2, Comp.collider ⟨"AABB", true⟩),
                     (3, Comp.collider ⟨"AABB", false⟩)])]
      [])).Nodup ∧
     ∀ a b : Nat, (a, b) ∈ collisionUpdate (World.mk 4 [1, 2, 3]
      [("Position", [(1, Comp.position ⟨0, 0⟩), (2, Comp.position ⟨5, 0⟩),
                     (3, Comp.position ⟨100, 100⟩)]),
       ("Dimensions", [(1, Comp.dimensions ⟨10, 5⟩), (2, Comp.dimensions ⟨10, 5⟩),
                       (3, Comp.dimensions ⟨10, 5⟩)]),
       ("Collider", [(1, Comp.collider ⟨"AABB", true⟩), (2, Comp.collider ⟨"AABB", true⟩),
                     (3, Comp.collider ⟨"AABB", false⟩)])]
      []) ↔
      ([a, b].Sublist (World.query (World.mk 4 [1, 2, 3]
        [("Position", [(1, Comp.position ⟨0, 0⟩), (2, Comp.position ⟨5, 0⟩),
                       (3, Comp.position ⟨100, 100⟩)]),
         ("Dimensions", [(1, Comp.dimensions ⟨10, 5⟩), (2, Comp.dimensions ⟨10, 5⟩),
                         (3, Comp.dimensions ⟨10, 5⟩)]),
         ("Collider", [(1, Comp.collider ⟨"AABB", true⟩), (2, Comp.collider ⟨"AABB", true⟩),
                       (3, Comp.collider ⟨"AABB", false⟩)])]
        []) [ComponentTypes.Position, ComponentTypes.Dimensions, ComponentTypes.Collider]) ∧
       ∃ p1 d1, colliderData (World.mk 4 [1, 2, 3]
        [("Position", [(1, Comp.position ⟨0, 0⟩), (2, Comp.position ⟨5, 0⟩),
                       (3, Comp.position ⟨100, 100⟩)]),
         ("Dimensions", [(1, Comp.dimensions ⟨10, 5⟩), (2, Comp.dimensions ⟨10, 5⟩),
                         (3, Comp.dimensions ⟨10, 5⟩)]),
         ("Collider", [(1, Comp.collider ⟨"AABB", true⟩), (2, Comp.collider ⟨"AABB", true⟩),
                       (3, Comp.collider ⟨"AABB", false⟩)])]
        []) a = some (p1, d1) ∧
       ∃ p2 d2, colliderData (World.mk 4 [1, 2, 3]
        [("Position", [(1, Comp.position ⟨0, 0⟩), (2, Comp.position ⟨5, 0⟩),
                       (3, Comp.position ⟨100, 100⟩)]),
         ("Dimensions", [(1, Comp.dimensions ⟨10, 5⟩), (2, Comp.dimensions ⟨10, 5⟩),
                         (3, Comp.dimensions ⟨10, 5⟩)]),
         ("Collider", [(1, Comp.collider ⟨"AABB", true⟩), (2, Comp.collider ⟨"AABB", true⟩),
                       (3, Comp.collider ⟨"AABB", false⟩)])]
        []) b = some (p2, d2) ∧
         checkCollision p1 d1 p2 d2 = true)) :=
  ⟨by decide, C5_collision_pairs _ (by decide)⟩

/-! ## MovementSystem (`src/packages/kenji/src/ecs/world.ts`, MovementSystem) -/

/-- The in-place mutation of a component record fetched from the store
(`position.x += ...` mutates the object held by the per-type map): replace
the stored entry for `(t, e)`. -/
def setComp (w : World Comp) (e : Nat) (t : String) (c : Comp) : World Comp :=
  match mapGet w.components t with
  | some m => { w with components := mapSet w.components t (mapSet m e c) }
  | none => w

/-- One iteration of the `MovementSystem.update` loop body for one entity:
`position.x += velocity.vx * (deltaTime / 1000)` and likewise for `y`. -/
def moveStep (dt : ℚ) (w : World Comp) (e : Nat) : World Comp :=
  match getPos w e, getVel w e with
  | some p, some v =>
    setComp w e ComponentTypes.Position
      (Comp.position ⟨p.x + v.vx * (dt / 1000), p.y + v.vy * (dt / 1000)⟩)
  | _, _ => w

/-- `MovementSystem.update(world, deltaTime)`: loop the step over
`query(Position, Velocity)`. -/
def movementUpdate (w : World Comp) (dt : ℚ) : World Comp :=
  (World.query w [ComponentTypes.Position, ComponentTypes.Velocity]).foldl
    (moveStep dt) w

theorem entities_setComp (w : World Comp) (e : Nat) (t : String) (c : Comp) :
    (setComp w e t c).entities = w.entities := by
  unfold setComp
  cases mapGet w.components t <;> rfl

theorem components_keys_setComp (w : World Comp) (e : Nat) (t t' : String) (c : Comp)
    (ht : t ≠ t') :
    World.getComponent (setComp w e t c) e' t' = World.getComponent w e' t' := by
  unfold setComp
  cases hm : mapGet w.components t with
  | none => rfl
  | some m =>
    rw [getComponent_eq_bind, getComponent_eq_bind]
    show (mapGet (mapSet w.components t (mapSet m e c)) t').bind _ = _
    rw [mapGet_mapSet_ne _ t' t _ ht]

theorem getComponent_setComp_ne (w : World Comp) (e e' : Nat) (t : String) (c : Comp)
    (hne : e ≠ e') :
    World.getComponent (setComp w e t c) e' t = World.getComponent w e' t := by
  unfold setComp
  cases hm : mapGet w.components t with
  | none => rfl
  | some m =>
    rw [getComponent_eq_bind, getComponent_eq_bind]
    show (mapGet (mapSet w.components t (mapSet m e c)) t).bind _ = _
    rw [mapGet_mapSet_self, hm]
    show mapGet (mapSet m e c) e' = mapGet m e'
    exact mapGet_mapSet_ne m e' e c hne

theorem getComponent_setComp_self (w : World Comp) (e : Nat) (t : String) (c : Comp)
    {m : List (Nat × Comp)} (hm : mapGet w.components t = some m) :
    World.getComponent (setComp w e t c) e t = some c := by
  unfold setComp
  rw [hm]
  show World.getComponent { w with components := mapSet w.components t (mapSet m e c) } e t
    = some c
  rw [getComponent_eq_bind]
  show (mapGet (mapSet w.components t (mapSet m e c)) t).bind _ = _
  rw [mapGet_mapSet_self]
  show mapGet (mapSet m e c) e = some c
  exact mapGet_mapSet_self m e c

theorem entities_moveStep (dt : ℚ) (w : World Comp) (e : Nat) :
    (moveStep dt w e).entities = w.entities := by
  unfold moveStep
  cases getPos w e with
  | none => rfl
  | some p =>
    cases getVel w e with
    | none => rfl
    | some v => exact entities_setComp ..

theorem getVel_comp_moveStep (dt : ℚ) (w : World Comp) (e e' : Nat) :
    World.getComponent (moveStep dt w e) e' ComponentTypes.Velocity
      = World.getComponent w e' ComponentTypes.Velocity := by
  unfold moveStep
  cases getPos w e with
  | none => rfl
  | some p =>
    cases getVel w e with
    | none => rfl
    | some v =>
      exact components_keys_setComp w e _ _ _ (by decide)

theorem getPos_comp_moveStep_ne (dt : ℚ) (w : World Comp) (e e' : Nat) (hne : e ≠ e') :
    World.getComponent (moveStep dt w e) e' ComponentTypes.Position
      = World.getComponent w e' ComponentTypes.Position := by
  unfold moveStep
  cases getPos w e with
  | none => rfl
  | some p =>
    cases getVel w e with
    | none => rfl
    | some v => exact getComponent_setComp_ne w e e' _ _ hne

theorem getPos_comp_moveStep_self (dt : ℚ) (w : World Comp) (e : Nat)
    (p : Position) (v : Velocity)
    (hp : World.getComponent w e ComponentTypes.Position = some (.position p))
    (hv : World.getComponent w e ComponentTypes.Velocity = some (.velocity v)) :
    World.getComponent (moveStep dt w e) e ComponentTypes.Position
      = some (.position ⟨p.x + v.vx * (dt / 1000), p.y + v.vy * (dt / 1000)⟩) := by
  have hgp : getPos w e = some p := by rw [getPos, hp]; rfl
  have hgv : getVel w e = some v := by rw [getVel, hv]; rfl
  obtain ⟨m, hm⟩ : ∃ m, mapGet w.components ComponentTypes.Position = some m := by
    rw [getComponent_eq_bind] at hp
    cases hmm : mapGet w.components ComponentTypes.Position with
    | none => rw [hmm] at hp; exact absurd hp (by simp)
    | some m => exact ⟨m, rfl⟩
  unfold moveStep
  rw [hgp, hgv]
  show World.getComponent (setComp w e ComponentTypes.Position _) e ComponentTypes.Position
    = _
  exact getComponent_setComp_self w e _ _ hm

theorem entities_foldl_moveStep (dt : ℚ) (l : List Nat) (w : World Comp) :
    (l.foldl (moveStep dt) w).entities = w.entities := by
  induction l generalizing w with
  | nil => rfl
  | cons a rest ih =>
    show ((rest.foldl (moveStep dt) (moveStep dt w a))).entities = _
    rw [ih, entities_moveStep]

theorem getVel_comp_foldl_moveStep (dt : ℚ) (l : List Nat) (w : World Comp) (e : Nat) :
    World.getComponent (l.foldl (moveStep dt) w) e ComponentTypes.Velocity
      = World.getComponent w e ComponentTypes.Velocity := by
  induction l generalizing w with
  | nil => rfl
  | cons a rest ih =>
    show World.getComponent (rest.foldl (moveStep dt) (moveStep dt w a)) e _ = _
    rw [ih, getVel_comp_moveStep]

theorem getPos_comp_foldl_moveStep_notmem (dt : ℚ) (l : List Nat) (w : World Comp)
    (e : Nat) (hnot : e ∉ l) :
    World.getComponent (l.foldl (moveStep dt) w) e ComponentTypes.Position
      = World.getComponent w e ComponentTypes.Position := by
  induction l generalizing w with
  | nil => rfl
  | cons a rest ih =>
    have hne : a ≠ e := fun h => hnot (h ▸ List.mem_cons_self _ _)
    have hrest : e ∉ rest := fun h => hnot (List.mem_cons_of_mem _ h)
    show World.getComponent (rest.foldl (moveStep dt) (moveStep dt w a)) e _ = _
    rw [ih _ hrest, getPos_comp_moveStep_ne _ _ _ _ hne]

theorem getPos_comp_foldl_moveStep_mem (dt : ℚ) (l : List Nat) (w : World Comp)
    (e : Nat) (p : Position) (v : Velocity) (hl : l.Nodup) (he : e ∈ l)
    (hp : World.getComponent w e ComponentTypes.Position = some (.position p))
    (hv : World.getComponent w e ComponentTypes.Velocity = some (.velocity v)) :
    World.getComponent (l.foldl (moveStep dt) w) e ComponentTypes.Position
      = some (.position ⟨p.x + v.vx * (dt / 1000), p.y + v.vy * (dt / 1000)⟩) := by
  induction l generalizing w with
  | nil => simp at he
  | cons a rest ih =>
    obtain ⟨hna, hrest⟩ := List.nodup_cons.mp hl
    show World.getComponent (rest.foldl (moveStep dt) (moveStep dt w a)) e _ = _
    rcases List.mem_cons.mp he with hea | hea
    · subst hea
      rw [getPos_comp_foldl_moveStep_notmem _ _ _ _ hna]
      exact getPos_comp_moveStep_self dt w e p v hp hv
    · have hne : a ≠ e := fun h => hna (h ▸ hea)
      refine ih _ hrest hea ?_ ?_
      · rw [getPos_comp_moveStep_ne _ _ _ _ hne]
        exact hp
      · rw [getVel_comp_moveStep]
        exact hv

theorem mem_movement_query {w : World Comp} {e : Nat} {p : Position} {v : Velocity}
    (he : e ∈ w.entities)
    (hp : World.getComponent w e ComponentTypes.Position = some (.position p))
    (hv : World.getComponent w e ComponentTypes.Velocity = some (.velocity v)) :
    e ∈ World.query w [ComponentTypes.Position, ComponentTypes.Velocity] := by
  unfold World.query
  rw [List.mem_filter]
  refine ⟨he, ?_⟩
  rw [List.all_eq_true]
  intro t ht
  rcases List.mem_cons.mp ht with ht | ht
  · subst ht
    rw [hasComponent_eq_isSome_getComponent, hp]
    rfl
  · rcases List.mem_cons.mp ht with ht | ht
    · subst ht
      rw [hasComponent_eq_isSome_getComponent, hv]
      rfl
    · simp at ht

/-- One `MovementSystem.update`: the entity's position advances by
`velocity * (dt / 1000)` and its velocity is untouched; the live set is not
changed. -/
theorem movementUpdate_effect (w : World Comp) (e : Nat) (p : Position) (v : Velocity)
    (dt : ℚ) (hnd : w.entities.Nodup) (he : e ∈ w.entities)
    (hp : World.getComponent w e ComponentTypes.Position = some (.position p))
    (hv : World.getComponent w e ComponentTypes.Velocity = some (.velocity v)) :
    World.getComponent (movementUpdate w dt) e ComponentTypes.Position
      = some (.position ⟨p.x + v.vx * (dt / 1000), p.y + v.vy * (dt / 1000)⟩) ∧
    World.getComponent (movementUpdate w dt) e ComponentTypes.Velocity
      = some (.velocity v) ∧
    (movementUpdate w dt).entities = w.entities := by
  have hq : (World.query w [ComponentTypes.Position, ComponentTypes.Velocity]).Nodup :=
    List.Nodup.filter _ hnd
  have heq : e ∈ World.query w [ComponentTypes.Position, ComponentTypes.Velocity] :=
    mem_movement_query he hp hv
  exact ⟨getPos_comp_foldl_moveStep_mem dt _ w e p v hq heq hp hv,
    by rw [movementUpdate, getVel_comp_foldl_moveStep]; exact hv,
    entities_foldl_moveStep ..⟩

/-- C9: for every live entity holding position and velocity,
`MovementSystem.update(world, dt)` sets `position` to
`position + velocity * (dt/1000)` with no clamping, and iterating updates
over a list of frame durations advances the position by
`velocity * (total elapsed)/1000` — in particular an entity with `vx = 20`
over fixed updates totalling a simulated second gains exactly 20 in `x`. -/
theorem C9_movement_integrates (w : World Comp) (e : Nat) (p : Position) (v : Velocity)
    (hnd : w.entities.Nodup) (he : e ∈ w.entities)
    (hp : World.getComponent w e ComponentTypes.Position = some (.position p))
    (hv : World.getComponent w e ComponentTypes.Velocity = some (.velocity v)) :
    (∀ dt : ℚ, World.getComponent (movementUpdate w dt) e ComponentTypes.Position
      = some (.position ⟨p.x + v.vx * (dt / 1000), p.y + v.vy * (dt / 1000)⟩)) ∧
    (∀ dts : List ℚ,
      World.getComponent (dts.foldl movementUpdate w) e ComponentTypes.Position
        = some (.position ⟨p.x + v.vx * (dts.sum / 1000),
                           p.y + v.vy * (dts.sum / 1000)⟩)) := by
  constructor
  · intro dt
    exact (movementUpdate_effect w e p v dt hnd he hp hv).1
  · intro dts
    induction dts generalizing w p with
    | nil =>
      show World.getComponent w e ComponentTypes.Position = _
      rw [hp]
      have hpe : (⟨p.x + v.vx * (List.sum ([] : List ℚ) / 1000),
          p.y + v.vy * (List.sum ([] : List ℚ) / 1000)⟩ : Position) = p := by
        obtain ⟨px, py⟩ := p
        simp
      rw [hpe]
    | cons dt rest ih =>
      obtain ⟨h1, h2, h3⟩ := movementUpdate_effect w e p v dt hnd he hp hv
      have hnd1 : (movementUpdate w dt).entities.Nodup := by rw [h3]; exact hnd
      have he1 : e ∈ (movementUpdate w dt).entities := by rw [h3]; exact he
      show World.getComponent (rest.foldl movementUpdate (movementUpdate w dt)) e _ = _
      rw [ih (movementUpdate w dt) ⟨p.x + v.vx * (dt / 1000), p.y + v.vy * (dt / 1000)⟩
        hnd1 he1 h1 h2]
      show some (Comp.position ⟨p.x + v.vx * (dt / 1000) + v.vx * (rest.sum / 1000),
        p.y + v.vy * (dt / 1000) + v.vy * (rest.sum / 1000)⟩) = _
      have hpe : (⟨p.x + v.vx * (dt / 1000) + v.vx * (rest.sum / 1000),
          p.y + v.vy * (dt / 1000) + v.vy * (rest.sum / 1000)⟩ : Position)
          = (⟨p.x + v.vx * ((dt :: rest).sum / 1000),
              p.y + v.vy * ((dt :: rest).sum / 1000)⟩ : Position) := by
        rw [Position.mk.injEq, List.sum_cons]
        exact ⟨by ring, by ring⟩
      rw [hpe]

/-- Witness for `C9_movement_integrates`: a ball at `(3, 2)` with velocity
`(20, 0)` in a one-entity world. -/
theorem C9_movement_integrates_witness :
    ((World.mk 2 [1] [("Position", [(1, Comp.position ⟨3, 2⟩)]),
        ("Velocity", [(1, Comp.velocity ⟨20, 0⟩)])] [] : World Comp).entities.Nodup ∧
     1 ∈ (World.mk 2 [1] [("Position", [(1, Comp.position ⟨3, 2⟩)]),
        ("Velocity", [(1, Comp.velocity ⟨20, 0⟩)])] [] : World Comp).entities ∧
     World.getComponent (World.mk 2 [1] [("Position", [(1, Comp.position ⟨3, 2⟩)]),
        ("Velocity", [(1, Comp.velocity ⟨20, 0⟩)])] []) 1 ComponentTypes.Position
       = some (Comp.position ⟨3, 2⟩) ∧
     World.getComponent (World.mk 2 [1] [("Position", [(1, Comp.position ⟨3, 2⟩)]),
        ("Velocity", [(1, Comp.velocity ⟨20, 0⟩)])] []) 1 ComponentTypes.Velocity
       = some (Comp.velocity ⟨20, 0⟩)) ∧
    ((∀ dt : ℚ, World.getComponent
        (movementUpdate (World.mk 2 [1] [("Position", [(1, Comp.position ⟨3, 2⟩)]),
          ("Velocity", [(1, Comp.velocity ⟨20, 0⟩)])] []) dt) 1 ComponentTypes.Position
        = some (Comp.position ⟨(3 : ℚ) + 20 * (dt / 1000), (2 : ℚ) + 0 * (dt / 1000)⟩)) ∧
     (∀ dts : List ℚ, World.getComponent
        (dts.foldl movementUpdate (World.mk 2 [1]
          [("Position", [(1, Comp.position ⟨3, 2⟩)]),
           ("Velocity", [(1, Comp.velocity ⟨20, 0⟩)])] [])) 1 ComponentTypes.Position
        = some (Comp.position ⟨(3 : ℚ) + 20 * (dts.sum / 1000),
                               (2 : ℚ) + 0 * (dts.sum / 1000)⟩))) :=
  ⟨⟨by decide, by decide, rfl, rfl⟩,
   C9_movement_integrates (World.mk 2 [1] [("Position", [(1, Comp.position ⟨3, 2⟩)]),
      ("Velocity", [(1, Comp.velocity ⟨20, 0⟩)])] []) 1 ⟨3, 2⟩ ⟨20, 0⟩
     (by decide) (by decide) rfl rfl⟩

/-! ## Renderer (triple-buffered diffing character grid)

Buffers hold `chars` and `colors` as row-major nested lists; a missing index
(`undefined` in the source) is `Option.none` via `get?`.  Coordinates are
JS numbers (`ℚ`), floored by `drawChar`. -/

structure RenderBuffer where
  width : Nat
  height : Nat
  chars : List (List Char)
  colors : List (List String)
deriving DecidableEq

/-- `createBuffer()`: `height` rows of `width` blank cells. -/
def createBuffer (width height : Nat) : RenderBuffer :=
  ⟨width, height, List.replicate height (List.replicate width ' '),
   List.replicate height (List.replicate width "white")⟩

structure Renderer where
  width : Nat
  height : Nat
  frontBuffer : RenderBuffer
  backBuffer : RenderBuffer
  previousBuffer : RenderBuffer
deriving DecidableEq

/-- `new Renderer(width, height)`. -/
def mkRenderer (width height : Nat) : Renderer :=
  ⟨width, height, createBuffer width height, createBuffer width height,
   createBuffer width height⟩

/-- `grid[y][x] = v` (a write out of range is dropped, like the source's
row-presence guards). -/
def setCell {β : Type} (g : List (List β)) (y x : Nat) (v : β) : List (List β) :=
  g.set y ((g.getD y []).set x v)

/-- `grid[y]?.[x]`. -/
def cellAt {β : Type} (g : List (List β)) (y x : Nat) : Option β :=
  (g.get? y).bind fun row => row.get? x

/-- `drawChar(x, y, char, color)`: floor the coordinates, clip out-of-bounds,
write one cell of the back buffer. -/
def drawChar (r : Renderer) (x y : ℚ) (c : Char) (color : String) : Renderer :=
  if ⌊x⌋ < 0 ∨ (r.width : ℤ) ≤ ⌊x⌋ ∨ ⌊y⌋ < 0 ∨ (r.height : ℤ) ≤ ⌊y⌋ then r
  else
    { r with backBuffer := { r.backBuffer with
        chars := setCell r.backBuffer.chars (⌊y⌋).toNat (⌊x⌋).toNat c
        colors := setCell r.backBuffer.colors (⌊y⌋).toNat (⌊x⌋).toNat color } }

/-- `clear()`: blank every back-buffer cell in the `height × width` window. -/
def clear (r : Renderer) : Renderer :=
  { r with backBuffer := { r.backBuffer with
      chars := (List.range r.height).foldl (fun g y =>
        (List.range r.width).foldl (fun g' x => setCell g' y x ' ') g)
        r.backBuffer.chars
      colors := (List.range r.height).foldl (fun g y =>
        (List.range r.width).foldl (fun g' x => setCell g' y x "white") g)
        r.backBuffer.colors } }

/-- The loop of `drawString`: `drawChar(x + i, y, str[i], color)`. -/
def drawStringAux (y : ℚ) (color : String) : Renderer → ℚ → List Char → Renderer
  | r, _, [] => r
  | r, x, c :: rest => drawStringAux y color (drawChar r x y c color) (x + 1) rest

/-- `drawString(x, y, str, color)`. -/
def drawString (r : Renderer) (x y : ℚ) (str : String) (color : String) : Renderer :=
  drawStringAux y color r x str.toList

/-- `drawBox(x, y, width, height, filled)`. -/
def drawBox (r : Renderer) (x y : ℚ) (width height : Nat) (filled : Bool) : Renderer :=
  if filled then
    (List.range height).foldl (fun r1 dy =>
      (List.range width).foldl (fun r2 dx =>
        drawChar r2 (x + dx) (y + dy) '█' "white") r1) r
  else
    (List.range (height - 1 - 1)).foldl (fun rr dy =>
      drawChar (drawChar rr x (y + (dy + 1)) '│' "white")
        (x + width - 1) (y + (dy + 1)) '│' "white")
      ((List.range (width - 1 - 1)).foldl (fun rr dx =>
        drawChar (drawChar rr (x + (dx + 1)) y '─' "white")
          (x + (dx + 1)) (y + height - 1) '─' "white")
        (drawChar (drawChar (drawChar (drawChar r x y '┌' "white")
            (x + width - 1) y '┐' "white")
          x (y + height - 1) '└' "white")
          (x + width - 1) (y + height - 1) '┘' "white"))

/-- The row-presence guard of `flip`'s `y`-loop: all six row arrays exist. -/
def flipRowOk (r : Renderer) (y : Nat) : Bool :=
  (r.backBuffer.chars.get? y).isSome && (r.backBuffer.colors.get? y).isSome &&
  (r.previousBuffer.chars.get? y).isSome && (r.previousBuffer.colors.get? y).isSome &&
  (r.frontBuffer.chars.get? y).isSome && (r.frontBuffer.colors.get? y).isSome

/-- The `hasChanges` accumulator of `flip`: some in-window cell differs
between back and previous buffer (on a row passing the presence guard). -/
def flipHasChanges (r : Renderer) : Bool :=
  (List.range r.height).any fun y =>
    flipRowOk r y &&
    ((List.range r.width).any fun x =>
      cellAt r.backBuffer.chars y x != cellAt r.previousBuffer.chars y x ||
      cellAt r.backBuffer.colors y x != cellAt r.previousBuffer.colors y x)

/-- The `x`-loop of `flip`'s copy phase on one row: for `x = x0, x0+1, ...`
(`fuel` iterations), copy the back cell into the destination when both its
char and its color are defined. -/
def copyRowAux (sC : List Char) (sK : List String) :
    Nat → Nat → List Char × List String → List Char × List String
  | _, 0, d => d
  | x, fuel + 1, d =>
    copyRowAux sC sK (x + 1) fuel
      (match sC.get? x, sK.get? x with
       | some c, some k => (d.1.set x c, d.2.set x k)
       | _, _ => d)

/-- One row of `flip`'s copy phase (`x` from `0` to `width - 1`). -/
def copyRowFrom (sC : List Char) (sK : List String) (width : Nat)
    (dC : List Char) (dK : List String) : List Char × List String :=
  copyRowAux sC sK 0 width (dC, dK)

/-- The `y`-loop of `flip`'s copy phase: rows `y = y0, y0+1, ...` (`fuel`
iterations), each guarded by the six-row presence check. -/
def copyGridAux (r : Renderer) :
    Nat → Nat → List (List Char) × List (List String) →
      List (List Char) × List (List String)
  | _, 0, d => d
  | y, fuel + 1, d =>
    copyGridAux r (y + 1) fuel
      (if flipRowOk r y then
        let row := copyRowFrom (r.backBuffer.chars.getD y [])
          (r.backBuffer.colors.getD y []) r.width (d.1.getD y []) (d.2.getD y [])
        (d.1.set y row.1, d.2.set y row.2)
      else d)

/-- `flip`'s copy of the back buffer into a destination buffer. -/
def copyGridFrom (r : Renderer) (dC : List (List Char)) (dK : List (List String)) :
    List (List Char) × List (List String) :=
  copyGridAux r 0 r.height (dC, dK)

/-- `flip()`: detect changes, copy back into front and previous, return the
empty string when nothing changed, else the frame as newline-joined rows of
the updated front buffer. -/
def flip (r : Renderer) : String × Renderer :=
  let hasChanges := flipHasChanges r
  let front := copyGridFrom r r.frontBuffer.chars r.frontBuffer.colors
  let prev := copyGridFrom r r.previousBuffer.chars r.previousBuffer.colors
  let r' := { r with
    frontBuffer := { r.frontBuffer with chars := front.1, colors := front.2 }
    previousBuffer := { r.previousBuffer with chars := prev.1, colors := prev.2 } }
  if hasChanges then
    (String.intercalate "\n"
      ((List.range r.height).filterMap fun y =>
        (front.1.get? y).map fun row => String.mk row), r')
  else ("", r')

/-- The rows of the grid holding at least one changed cell — what the claim
says `flip` should emit. -/
def changedRows (r : Renderer) : List Nat :=
  (List.range r.height).filter fun y =>
    (List.range r.width).any fun x =>
      cellAt r.backBuffer.chars y x != cellAt r.previousBuffer.chars y x ||
      cellAt r.backBuffer.colors y x != cellAt r.previousBuffer.colors y x

/-- C2, counterexample to the claim as stated: on a fresh `1 × 2` renderer,
drawing `A` at `(0,0)` changes only row `0`, yet `flip()` emits *both* rows
(`"A\n "`), including the line of row `1` whose cells are all unchanged.
The non-empty output is always the entire frame, never only the changed
lines (which here would be just `"A"`). -/
theorem C2_unchanged_line_emitted_counterexample :
    changedRows (drawChar (mkRenderer 1 2) 0 0 'A' "white") = [0] ∧
    (flip (drawChar (mkRenderer 1 2) 0 0 'A' "white")).1 = "A\n " ∧
    (flip (drawChar (mkRenderer 1 2) 0 0 'A' "white")).1 ≠ "A" := by
  refine ⟨by decide, by decide, by decide⟩

/-! ## Draw-phase operations (for claim C10) -/

/-- One draw-phase call on the `Renderer`. -/
inductive DrawOp where
  | clearOp : DrawOp
  | char (x y : ℚ) (c : Char) (color : String) : DrawOp
  | str (x y : ℚ) (s : String) (color : String) : DrawOp
  | box (x y : ℚ) (width height : Nat) (filled : Bool) : DrawOp

def applyDraw (r : Renderer) : DrawOp → Renderer
  | .clearOp => clear r
  | .char x y c color => drawChar r x y c color
  | .str x y s color => drawString r x y s color
  | .box x y wd ht f => drawBox r x y wd ht f

def applyDraws (r : Renderer) (ops : List DrawOp) : Renderer :=
  ops.foldl applyDraw r

theorem drawChar_front_prev (r : Renderer) (x y : ℚ) (c : Char) (color : String) :
    (drawChar r x y c color).frontBuffer = r.frontBuffer ∧
    (drawChar r x y c color).previousBuffer = r.previousBuffer := by
  unfold drawChar
  split <;> exact ⟨rfl, rfl⟩

theorem foldl_front_prev {σ : Type} {f : Renderer → σ → Renderer}
    (hf : ∀ r s, (f r s).frontBuffer = r.frontBuffer ∧
      (f r s).previousBuffer = r.previousBuffer) :
    ∀ (l : List σ) (r : Renderer),
      (l.foldl f r).frontBuffer = r.frontBuffer ∧
      (l.foldl f r).previousBuffer = r.previousBuffer := by
  intro l
  induction l with
  | nil => exact fun r => ⟨rfl, rfl⟩
  | cons a rest ih =>
    intro r
    show (rest.foldl f (f r a)).frontBuffer = _ ∧ _
    exact ⟨(ih (f r a)).1.trans (hf r a).1, (ih (f r a)).2.trans (hf r a).2⟩

theorem drawStringAux_front_prev (y : ℚ) (color : String) :
    ∀ (cs : List Char) (r : Renderer) (x : ℚ),
      (drawStringAux y color r x cs).frontBuffer = r.frontBuffer ∧
      (drawStringAux y color r x cs).previousBuffer = r.previousBuffer := by
  intro cs
  induction cs with
  | nil => exact fun r x => ⟨rfl, rfl⟩
  | cons c rest ih =>
    intro r x
    show (drawStringAux y color (drawChar r x y c color) (x + 1) rest).frontBuffer = _ ∧ _
    exact ⟨(ih _ _).1.trans (drawChar_front_prev ..).1,
           (ih _ _).2.trans (drawChar_front_prev ..).2⟩

theorem drawBox_front_prev (r : Renderer) (x y : ℚ) (wd ht : Nat) (f : Bool) :
    (drawBox r x y wd ht f).frontBuffer = r.frontBuffer ∧
    (drawBox r x y wd ht f).previousBuffer = r.previousBuffer := by
  unfold drawBox
  split
  · exact foldl_front_prev (fun r1 dy => foldl_front_prev
      (fun r2 dx => drawChar_front_prev ..) _ r1) _ r
  · constructor
    · exact ((foldl_front_prev (fun rr dy =>
        ⟨(drawChar_front_prev _ _ _ _ _).1.trans (drawChar_front_prev _ _ _ _ _).1,
         (drawChar_front_prev _ _ _ _ _).2.trans (drawChar_front_prev _ _ _ _ _).2⟩) _ _).1).trans
        (((foldl_front_prev (fun rr dx =>
          ⟨(drawChar_front_prev _ _ _ _ _).1.trans (drawChar_front_prev _ _ _ _ _).1,
           (drawChar_front_prev _ _ _ _ _).2.trans (drawChar_front_prev _ _ _ _ _).2⟩) _ _).1).trans
          (((drawChar_front_prev _ _ _ _ _).1).trans (((drawChar_front_prev _ _ _ _ _).1).trans
            (((drawChar_front_prev _ _ _ _ _).1).trans ((drawChar_front_prev _ _ _ _ _).1)))))
    · exact ((foldl_front_prev (fun rr dy =>
        ⟨(drawChar_front_prev _ _ _ _ _).1.trans (drawChar_front_prev _ _ _ _ _).1,
         (drawChar_front_prev _ _ _ _ _).2.trans (drawChar_front_prev _ _ _ _ _).2⟩) _ _).2).trans
        (((foldl_front_prev (fun rr dx =>
          ⟨(drawChar_front_prev _ _ _ _ _).1.trans (drawChar_front_prev _ _ _ _ _).1,
           (drawChar_front_prev _ _ _ _ _).2.trans (drawChar_front_prev _ _ _ _ _).2⟩) _ _).2).trans
          (((drawChar_front_prev _ _ _ _ _).2).trans (((drawChar_front_prev _ _ _ _ _).2).trans
            (((drawChar_front_prev _ _ _ _ _).2).trans ((drawChar_front_prev _ _ _ _ _).2)))))

theorem applyDraw_front_prev (r : Renderer) (op : DrawOp) :
    (applyDraw r op).frontBuffer = r.frontBuffer ∧
    (applyDraw r op).previousBuffer = r.previousBuffer := by
  cases op with
  | clearOp => exact ⟨rfl, rfl⟩
  | char x y c color => exact drawChar_front_prev ..
  | str x y s color => exact drawStringAux_front_prev ..
  | box x y wd ht f => exact drawBox_front_prev ..

/-- C10: every draw-phase operation writes only the back buffer — any
sequence of `clear`/`drawChar`/`drawString`/`drawBox` calls leaves the front
buffer and the previous (shadow) buffer untouched; only `flip()` writes
them. -/
theorem C10_draw_phase_touches_only_back (r : Renderer) (ops : List DrawOp) :
    (applyDraws r ops).frontBuffer = r.frontBuffer ∧
    (applyDraws r ops).previousBuffer = r.previousBuffer :=
  foldl_front_prev applyDraw_front_prev ops r

/-! ### flip: the copy phase restores the back buffer into front and previous -/

theorem copyRowAux_full (sC : List Char) (sK : List String) :
    ∀ (fuel x : Nat) (dC : List Char) (dK : List String),
      x + fuel = sC.length → sK.length = sC.length →
      dC.length = sC.length → dK.length = sC.length →
      (∀ j, j < x → dC.get? j = sC.get? j ∧ dK.get? j = sK.get? j) →
      copyRowAux sC sK x fuel (dC, dK) = (sC, sK) := by
  intro fuel
  induction fuel with
  | zero =>
    intro x dC dK hx hsk hdc hdk hpre
    show (dC, dK) = (sC, sK)
    have h1 : dC = sC := by
      apply List.ext_get?
      intro j
      rcases Nat.lt_or_ge j x with hj | hj
      · exact (hpre j hj).1
      · rw [List.get?_eq_none.mpr (by omega), List.get?_eq_none.mpr (by omega)]
    have h2 : dK = sK := by
      apply List.ext_get?
      intro j
      rcases Nat.lt_or_ge j x with hj | hj
      · exact (hpre j hj).2
      · rw [List.get?_eq_none.mpr (by omega), List.get?_eq_none.mpr (by omega)]
    rw [h1, h2]
  | succ fuel ih =>
    intro x dC dK hx hsk hdc hdk hpre
    obtain ⟨c, hc⟩ : ∃ c, sC.get? x = some c := by
      cases hcc : sC.get? x with
      | none => exact absurd (List.get?_eq_none.mp hcc) (by omega)
      | some c => exact ⟨c, rfl⟩
    obtain ⟨k, hk⟩ : ∃ k, sK.get? x = some k := by
      cases hkk : sK.get? x with
      | none => exact absurd (List.get?_eq_none.mp hkk) (by omega)
      | some k => exact ⟨k, rfl⟩
    show copyRowAux sC sK (x + 1) fuel
      (match sC.get? x, sK.get? x with
       | some c, some k => (dC.set x c, dK.set x k)
       | _, _ => (dC, dK)) = (sC, sK)
    rw [hc, hk]
    show copyRowAux sC sK (x + 1) fuel (dC.set x c, dK.set x k) = (sC, sK)
    apply ih (x + 1) (dC.set x c) (dK.set x k) (by omega) hsk
      (by rw [List.length_set]; exact hdc) (by rw [List.length_set]; exact hdk)
    intro j hj
    rcases Nat.lt_or_ge j x with hjx | hjx
    · rw [List.get?_set_ne _ _ (by omega), List.get?_set_ne _ _ (by omega)]
      exact hpre j hjx
    · have hjx2 : j = x := by omega
      subst hjx2
      rw [List.get?_set_eq, List.get?_set_eq, hc, hk]
      constructor
      · show (fun _ => c) <$> dC.get? j = some c
        cases hd : dC.get? j with
        | none => exact absurd (List.get?_eq_none.mp hd) (by omega)
        | some d0 => rfl
      · show (fun _ => k) <$> dK.get? j = some k
        cases hd : dK.get? j with
        | none => exact absurd (List.get?_eq_none.mp hd) (by omega)
        | some d0 => rfl

/-- From `j < l.length`, `l.get? j = some (l.getD j d)`. -/
theorem get?_eq_some_getD {β : Type} {l : List β} {j : Nat} (d : β)
    (h : j < l.length) : l.get? j = some (l.getD j d) := by
  cases hj : l.get? j with
  | none => exact absurd (List.get?_eq_none.mp hj) (by omega)
  | some a =>
    have := List.getD_eq_get? l j d
    rw [hj] at this
    rw [this]
    rfl

theorem copyGridAux_full (r : Renderer) :
    ∀ (fuel y : Nat) (dC : List (List Char)) (dK : List (List String)),
      y + fuel = r.height →
      r.backBuffer.chars.length = r.height →
      r.backBuffer.colors.length = r.height →
      (∀ row ∈ r.backBuffer.chars, row.length = r.width) →
      (∀ row ∈ r.backBuffer.colors, row.length = r.width) →
      (∀ j, j < r.height → flipRowOk r j = true) →
      dC.length = r.height → dK.length = r.height →
      (∀ row ∈ dC, row.length = r.width) → (∀ row ∈ dK, row.length = r.width) →
      (∀ j, j < y → dC.get? j = r.backBuffer.chars.get? j ∧
        dK.get? j = r.backBuffer.colors.get? j) →
      copyGridAux r y fuel (dC, dK)
        = (r.backBuffer.chars, r.backBuffer.colors) := by
  intro fuel
  induction fuel with
  | zero =>
    intro y dC dK hy hbc hbk hbc' hbk' hok hdc hdk hdc' hdk' hpre
    show (dC, dK) = _
    have h1 : dC = r.backBuffer.chars := by
      apply List.ext_get?
      intro j
      rcases Nat.lt_or_ge j y with hj | hj
      · exact (hpre j hj).1
      · rw [List.get?_eq_none.mpr (by omega), List.get?_eq_none.mpr (by omega)]
    have h2 : dK = r.backBuffer.colors := by
      apply List.ext_get?
      intro j
      rcases Nat.lt_or_ge j y with hj | hj
      · exact (hpre j hj).2
      · rw [List.get?_eq_none.mpr (by omega), List.get?_eq_none.mpr (by omega)]
    rw [h1, h2]
  | succ fuel ih =>
    intro y dC dK hy hbc hbk hbc' hbk' hok hdc hdk hdc' hdk' hpre
    have hyh : y < r.height := by omega
    show copyGridAux r (y + 1) fuel
      (if flipRowOk r y then
        let row := copyRowFrom (r.backBuffer.chars.getD y [])
          (r.backBuffer.colors.getD y []) r.width (dC.getD y []) (dK.getD y [])
        (dC.set y row.1, dK.set y row.2)
      else (dC, dK)) = _
    rw [if_pos (hok y hyh)]
    have hbrow : r.backBuffer.chars.get? y = some (r.backBuffer.chars.getD y []) :=
      get?_eq_some_getD [] (by omega)
    have hkrow : r.backBuffer.colors.get? y = some (r.backBuffer.colors.getD y []) :=
      get?_eq_some_getD [] (by omega)
    have hbrowlen : (r.backBuffer.chars.getD y []).length = r.width :=
      hbc' _ (List.get?_mem hbrow)
    have hkrowlen : (r.backBuffer.colors.getD y []).length = r.width :=
      hbk' _ (List.get?_mem hkrow)
    have hdrow : dC.get? y = some (dC.getD y []) := get?_eq_some_getD [] (by omega)
    have hdkrow : dK.get? y = some (dK.getD y []) := get?_eq_some_getD [] (by omega)
    have hdrowlen : (dC.getD y []).length = r.width := hdc' _ (List.get?_mem hdrow)
    have hdkrowlen : (dK.getD y []).length = r.width := hdk' _ (List.get?_mem hdkrow)
    have hcopy : copyRowFrom (r.backBuffer.chars.getD y [])
        (r.backBuffer.colors.getD y []) r.width (dC.getD y []) (dK.getD y [])
        = (r.backBuffer.chars.getD y [], r.backBuffer.colors.getD y []) := by
      unfold copyRowFrom
      exact copyRowAux_full _ _ r.width 0 _ _ (by omega)
        (by rw [hkrowlen, hbrowlen]) (by rw [hdrowlen, hbrowlen])
        (by rw [hdkrowlen, hbrowlen]) (fun j hj => absurd hj (by omega))
    rw [hcopy]
    apply ih (y + 1) _ _ (by omega) hbc hbk hbc' hbk' hok
      (by rw [List.length_set]; exact hdc) (by rw [List.length_set]; exact hdk)
      ?_ ?_ ?_
    · intro row hrow
      rcases List.mem_or_eq_of_mem_set hrow with hrow | hrow
      · exact hdc' row hrow
      · rw [hrow]; exact hbrowlen
    · intro row hrow
      rcases List.mem_or_eq_of_mem_set hrow with hrow | hrow
      · exact hdk' row hrow
      · rw [hrow]; exact hkrowlen
    · intro j hj
      rcases Nat.lt_or_ge j y with hjy | hjy
      · rw [List.get?_set_ne _ _ (by omega), List.get?_set_ne _ _ (by omega)]
        exact hpre j hjy
      · have hjy2 : j = y := by omega
        subst hjy2
        rw [List.get?_set_eq, List.get?_set_eq, hbrow, hkrow, hdrow, hdkrow]
        exact ⟨rfl, rfl⟩

/-! ### flip: change detection and output assembly -/

theorem grid_eq_of_cells {β : Type} {a b : List (List β)} {ht wd : Nat}
    (ha : a.length = ht) (hb : b.length = ht)
    (ha' : ∀ row ∈ a, row.length = wd) (hb' : ∀ row ∈ b, row.length = wd)
    (h : ∀ y, y < ht → ∀ x, x < wd → cellAt a y x = cellAt b y x) : a = b := by
  apply List.ext_get?
  intro y
  rcases Nat.lt_or_ge y ht with hy | hy
  · have hra : a.get? y = some (a.getD y []) := get?_eq_some_getD [] (by omega)
    have hrb : b.get? y = some (b.getD y []) := get?_eq_some_getD [] (by omega)
    rw [hra, hrb]
    congr 1
    apply List.ext_get?
    intro x
    rcases Nat.lt_or_ge x wd with hx | hx
    · have := h y hy x hx
      rw [cellAt, cellAt, hra, hrb] at this
      exact this
    · rw [List.get?_eq_none.mpr (by rw [ha' _ (List.get?_mem hra)]; omega),
          List.get?_eq_none.mpr (by rw [hb' _ (List.get?_mem hrb)]; omega)]
  · rw [List.get?_eq_none.mpr (by omega), List.get?_eq_none.mpr (by omega)]

theorem cells_eq_of_grid_eq {β : Type} {a b : List (List β)} (h : a = b) :
    ∀ y x, cellAt a y x = cellAt b y x := by
  intro y x
  rw [h]

/-- Under the shape invariant, `flip`'s `hasChanges` scan is exactly the
inequality of the back and previous buffers. -/
theorem flipHasChanges_false_iff (r : Renderer)
    (hok : ∀ j, j < r.height → flipRowOk r j = true)
    (hbc : r.backBuffer.chars.length = r.height)
    (hbk : r.backBuffer.colors.length = r.height)
    (hpc : r.previousBuffer.chars.length = r.height)
    (hpk : r.previousBuffer.colors.length = r.height)
    (hbc' : ∀ row ∈ r.backBuffer.chars, row.length = r.width)
    (hbk' : ∀ row ∈ r.backBuffer.colors, row.length = r.width)
    (hpc' : ∀ row ∈ r.previousBuffer.chars, row.length = r.width)
    (hpk' : ∀ row ∈ r.previousBuffer.colors, row.length = r.width) :
    flipHasChanges r = false ↔
      (r.backBuffer.chars = r.previousBuffer.chars ∧
       r.backBuffer.colors = r.previousBuffer.colors) := by
  unfold flipHasChanges
  rw [List.any_eq_false]
  constructor
  · intro h
    have hcell : ∀ y, y < r.height → ∀ x, x < r.width →
        cellAt r.backBuffer.chars y x = cellAt r.previousBuffer.chars y x ∧
        cellAt r.backBuffer.colors y x = cellAt r.previousBuffer.colors y x := by
      intro y hy x hx
      have hfy := h y (List.mem_range.mpr hy)
      simp only [hok y hy, Bool.true_and, Bool.not_eq_true] at hfy
      rw [List.any_eq_false] at hfy
      have hfx := hfy x (List.mem_range.mpr hx)
      simp only [Bool.or_eq_true, bne_iff_ne, not_or, ne_eq, not_not] at hfx
      exact hfx
    exact ⟨grid_eq_of_cells hbc hpc hbc' hpc' (fun y hy x hx => (hcell y hy x hx).1),
           grid_eq_of_cells hbk hpk hbk' hpk' (fun y hy x hx => (hcell y hy x hx).2)⟩
  · rintro ⟨h1, h2⟩
    intro y _
    intro hcontra
    simp only [Bool.and_eq_true, List.any_eq_true, Bool.or_eq_true, bne_iff_ne] at hcontra
    obtain ⟨-, x, -, hne | hne⟩ := hcontra
    · exact hne (cells_eq_of_grid_eq h1 y x)
    · exact hne (cells_eq_of_grid_eq h2 y x)

/-- Reading every row of a list by index over `range` recovers the list. -/
theorem range_filterMap_get {β γ : Type} (f : β → γ) (l : List β) :
    (List.range l.length).filterMap (fun y => (l.get? y).map f) = l.map f := by
  induction l with
  | nil => simp
  | cons a rest ih =>
    rw [List.length_cons, List.range_succ_eq_map, List.filterMap_cons]
    simp only [List.get?_cons_zero, Option.map_some', List.filterMap_map]
    rw [show ((fun y => ((a :: rest).get? y).map f) ∘ Nat.succ)
        = fun y => (rest.get? y).map f from
      funext fun y => by rw [Function.comp_apply, List.get?_cons_succ]]
    rw [ih, List.map_cons]

/-- Shape invariant of one buffer: `ht` rows of `wd` cells, chars and
colors alike. Holds for `createBuffer` and is preserved by every draw. -/
def BufferWF (b : RenderBuffer) (wd ht : Nat) : Prop :=
  b.chars.length = ht ∧ b.colors.length = ht ∧
  (∀ row ∈ b.chars, row.length = wd) ∧ (∀ row ∈ b.colors, row.length = wd)

/-- Shape invariant of the whole renderer. -/
def RendererWF (r : Renderer) : Prop :=
  BufferWF r.frontBuffer r.width r.height ∧ BufferWF r.backBuffer r.width r.height ∧
  BufferWF r.previousBuffer r.width r.height

instance (b : RenderBuffer) (wd ht : Nat) : Decidable (BufferWF b wd ht) := by
  unfold BufferWF; infer_instance

instance (r : Renderer) : Decidable (RendererWF r) := by
  unfold RendererWF; infer_instance

theorem flipRowOk_of_wf {r : Renderer} (hwf : RendererWF r) :
    ∀ j, j < r.height → flipRowOk r j = true := by
  intro j hj
  obtain ⟨⟨hf1, hf2, -, -⟩, ⟨hb1, hb2, -, -⟩, ⟨hp1, hp2, -, -⟩⟩ := hwf
  unfold flipRowOk
  rw [get?_eq_some_getD [] (by omega), get?_eq_some_getD [] (by omega),
      get?_eq_some_getD [] (by omega), get?_eq_some_getD [] (by omega),
      get?_eq_some_getD [] (by omega), get?_eq_some_getD [] (by omega)]
  rfl

/-- C2 (amended): under the shape invariant, the output of `flip()` is the
empty string when no cell of the back buffer differs from the shadow
(previous) buffer, and otherwise it is the ENTIRE grid — every row of the
back buffer joined by newlines, including rows with no changed cell.  In
both cases front and previous buffers become copies of the back buffer.
`flip` does not emit only the changed lines. -/
theorem C2_flip_full_frame_or_empty (r : Renderer) (hwf : RendererWF r) :
    ((r.backBuffer.chars = r.previousBuffer.chars ∧
      r.backBuffer.colors = r.previousBuffer.colors) → (flip r).1 = "") ∧
    (¬(r.backBuffer.chars = r.previousBuffer.chars ∧
       r.backBuffer.colors = r.previousBuffer.colors) →
      (flip r).1 = String.intercalate "\n"
        (r.backBuffer.chars.map fun row => String.mk row)) ∧
    (flip r).2.frontBuffer.chars = r.backBuffer.chars ∧
    (flip r).2.frontBuffer.colors = r.backBuffer.colors ∧
    (flip r).2.previousBuffer.chars = r.backBuffer.chars ∧
    (flip r).2.previousBuffer.colors = r.backBuffer.colors := by
  have hok := flipRowOk_of_wf hwf
  obtain ⟨⟨hf1, hf2, hf3, hf4⟩, ⟨hb1, hb2, hb3, hb4⟩, ⟨hp1, hp2, hp3, hp4⟩⟩ := hwf
  have hfront : copyGridFrom r r.frontBuffer.chars r.frontBuffer.colors
      = (r.backBuffer.chars, r.backBuffer.colors) :=
    copyGridAux_full r r.height 0 _ _ (by omega) hb1 hb2 hb3 hb4 hok hf1 hf2 hf3 hf4
      (fun j hj => absurd hj (by omega))
  have hprev : copyGridFrom r r.previousBuffer.chars r.previousBuffer.colors
      = (r.backBuffer.chars, r.backBuffer.colors) :=
    copyGridAux_full r r.height 0 _ _ (by omega) hb1 hb2 hb3 hb4 hok hp1 hp2 hp3 hp4
      (fun j hj => absurd hj (by omega))
  have hchange := flipHasChanges_false_iff r hok hb1 hb2 hp1 hp2 hb3 hb4 hp3 hp4
  refine ⟨?_, ?_, ?_, ?_, ?_, ?_⟩
  · intro heq
    have hfc : flipHasChanges r = false := hchange.mpr heq
    simp [flip, hfc]
  · intro hne
    have hfc : flipHasChanges r = true := by
      cases hval : flipHasChanges r
      · exact absurd (hchange.mp hval) hne
      · rfl
    simp only [flip, hfc, if_true]
    rw [hfront]
    rw [show r.height = r.backBuffer.chars.length from hb1.symm]
    rw [range_filterMap_get]
  · simp only [flip]
    split <;> simp [hfront]
  · simp only [flip]
    split <;> simp [hfront]
  · simp only [flip]
    split <;> simp [hprev]
  · simp only [flip]
    split <;> simp [hprev]

/-- Witness for `C2_flip_full_frame_or_empty` at the `1×2` renderer with one
drawn cell. -/
theorem C2_flip_full_frame_or_empty_witness :
    (RendererWF (drawChar (mkRenderer 1 2) 0 0 'A' "white")) ∧
    (((drawChar (mkRenderer 1 2) 0 0 'A' "white").backBuffer.chars
        = (drawChar (mkRenderer 1 2) 0 0 'A' "white").previousBuffer.chars ∧
      (drawChar (mkRenderer 1 2) 0 0 'A' "white").backBuffer.colors
        = (drawChar (mkRenderer 1 2) 0 0 'A' "white").previousBuffer.colors) →
      (flip (drawChar (mkRenderer 1 2) 0 0 'A' "white")).1 = "") ∧
    (¬((drawChar (mkRenderer 1 2) 0 0 'A' "white").backBuffer.chars
        = (drawChar (mkRenderer 1 2) 0 0 'A' "white").previousBuffer.chars ∧
       (drawChar (mkRenderer 1 2) 0 0 'A' "white").backBuffer.colors
        = (drawChar (mkRenderer 1 2) 0 0 'A' "white").previousBuffer.colors) →
      (flip (drawChar (mkRenderer 1 2) 0 0 'A' "white")).1
        = String.intercalate "\n"
          ((drawChar (mkRenderer 1 2) 0 0 'A' "white").backBuffer.chars.map
            fun row => String.mk row)) ∧
    (flip (drawChar (mkRenderer 1 2) 0 0 'A' "white")).2.frontBuffer.chars
      = (drawChar (mkRenderer 1 2) 0 0 'A' "white").backBuffer.chars ∧
    (flip (drawChar (mkRenderer 1 2) 0 0 'A' "white")).2.frontBuffer.colors
      = (drawChar (mkRenderer 1 2) 0 0 'A' "white").backBuffer.colors ∧
    (flip (drawChar (mkRenderer 1 2) 0 0 'A' "white")).2.previousBuffer.chars
      = (drawChar (mkRenderer 1 2) 0 0 'A' "white").backBuffer.chars ∧
    (flip (drawChar (mkRenderer 1 2) 0 0 'A' "white")).2.previousBuffer.colors
      = (drawChar (mkRenderer 1 2) 0 0 'A' "white").backBuffer.colors :=
  ⟨by decide, C2_flip_full_frame_or_empty (drawChar (mkRenderer 1 2) 0 0 'A' "white")
    (by decide)⟩

/-! ## GameEngine.gameLoop: the fixed-timestep accumulator

JavaScript numbers are IEEE-754 binary64.  Every value arising in the
accumulator computation lies in the normal range, so binary64 arithmetic is:
compute the exact rational result, then round to 53 significant bits,
round-to-nearest with ties to even.  `fl` implements exactly that rounding;
`fadd`/`fsub`/`fdiv` are the correctly-rounded operations. -/

/-- Round a rational to the nearest integer, ties to even. -/
def roundHalfEven (q : ℚ) : ℤ :=
  if q - ⌊q⌋ < 1/2 then ⌊q⌋
  else if 1/2 < q - ⌊q⌋ then ⌊q⌋ + 1
  else if ⌊q⌋ % 2 = 0 then ⌊q⌋ else ⌊q⌋ + 1

/-- Binary64 rounding of a positive rational in the normal range: keep 53
significant bits at exponent `Int.log 2 q`, ties to even. -/
def flPos (q : ℚ) : ℚ :=
  (roundHalfEven (q * 2 ^ ((52 : ℤ) - Int.log 2 q)) : ℚ)
    * 2 ^ (Int.log 2 q - (52 : ℤ))

/-- Binary64 rounding of a rational (range checks are outside our use). -/
def fl (q : ℚ) : ℚ :=
  if q = 0 then 0 else if q < 0 then -flPos (-q) else flPos q

/-- Correctly rounded binary64 addition, subtraction, division. -/
def fadd (a b : ℚ) : ℚ := fl (a + b)

def fsub (a b : ℚ) : ℚ := fl (a - b)

def fdiv (a b : ℚ) : ℚ := fl (a / b)

/-- `this.frameTime = 1000 / this.config.fps` at the default `fps = 60`. -/
def frameTime : ℚ := fdiv 1000 60

/-- `while (this.accumulator >= this.frameTime) { this.emit('fixedUpdate',
this.frameTime); this.accumulator -= this.frameTime; }` — `fuel` bounds the
iterations (the theorems also certify the final accumulator is below the
frame time, i.e. the loop exited by its condition, not by fuel).  Returns
(number of `fixedUpdate` emissions, final accumulator). -/
def spinFixed (ft : ℚ) : Nat → ℚ → Nat × ℚ
  | 0, acc => (0, acc)
  | fuel + 1, acc =>
    if ft ≤ acc then
      ((spinFixed ft fuel (fsub acc ft)).1 + 1, (spinFixed ft fuel (fsub acc ft)).2)
    else (0, acc)

structure TickResult where
  fixedCount : Nat
  interpolation : ℚ
  accumulator : ℚ
deriving DecidableEq

/-- One wake-up of `gameLoop`: `deltaTime = min(elapsed, 100)`;
`accumulator += deltaTime`; run the fixed-update loop; `interpolation =
accumulator / frameTime`. -/
def gameTick (fuel : Nat) (acc0 elapsed : ℚ) : TickResult :=
  ⟨(spinFixed frameTime fuel (fadd acc0 (min elapsed 100))).1,
   fdiv (spinFixed frameTime fuel (fadd acc0 (min elapsed 100))).2 frameTime,
   (spinFixed frameTime fuel (fadd acc0 (min elapsed 100))).2⟩

theorem int_log2_eq {q : ℚ} {e : ℤ} (hq : 0 < q)
    (h1 : (2 : ℚ) ^ e ≤ q) (h2 : q < (2 : ℚ) ^ (e + 1)) : Int.log 2 q = e := by
  have h1' : ((2 : ℕ) : ℚ) ^ e ≤ q := by rw [Nat.cast_ofNat]; exact h1
  have h2' : q < ((2 : ℕ) : ℚ) ^ (e + 1) := by rw [Nat.cast_ofNat]; exact h2
  have ha := (Int.zpow_le_iff_le_log (by norm_num) hq).mp h1'
  have hb := (Int.lt_zpow_iff_log_lt (by norm_num) hq).mp h2'
  omega

theorem fl_eval {q : ℚ} {e m : ℤ} (hq : 0 < q)
    (h1 : (2 : ℚ) ^ e ≤ q) (h2 : q < (2 : ℚ) ^ (e + 1))
    (hm : roundHalfEven (q * 2 ^ ((52 : ℤ) - e)) = m) :
    fl q = m * 2 ^ (e - (52 : ℤ)) := by
  unfold fl
  rw [if_neg (ne_of_gt hq), if_neg (not_lt.mpr hq.le)]
  unfold flPos
  rw [int_log2_eq hq h1 h2, hm]

theorem frameTime_eval : frameTime = 4691249611844267 / 281474976710656 := by
  unfold frameTime fdiv
  have hm : roundHalfEven ((1000 / 60 : ℚ) * 2 ^ ((52 : ℤ) - 4))
      = 4691249611844267 := by
    have hfl : ⌊(1000 / 60 : ℚ) * 2 ^ ((52 : ℤ) - 4)⌋ = 4691249611844266 := by
      norm_num
    unfold roundHalfEven
    rw [hfl]
    norm_num
  have := fl_eval (e := 4) (by norm_num) (by norm_num) (by norm_num) hm
  rw [this]
  norm_num

theorem fadd_0_50 : fadd 0 50 = 50 := by
  unfold fadd
  have h050 : (0 : ℚ) + 50 = 50 := by norm_num
  rw [h050]
  have hm : roundHalfEven ((50 : ℚ) * 2 ^ ((52 : ℤ) - 5)) = 7036874417766400 := by
    have hfl : ⌊(50 : ℚ) * 2 ^ ((52 : ℤ) - 5)⌋ = 7036874417766400 := by norm_num
    unfold roundHalfEven
    rw [hfl]
    norm_num
  have := fl_eval (e := 5) (by norm_num) (by norm_num) (by norm_num) hm
  rw [this]
  norm_num

theorem fsub_50_frameTime :
    fsub 50 frameTime = 2345624805922133 / 70368744177664 := by
  unfold fsub
  rw [frameTime_eval]
  have hd : (50 : ℚ) - 4691249611844267 / 281474976710656
      = 9382499223688533 / 281474976710656 := by norm_num
  rw [hd]
  have hm : roundHalfEven ((9382499223688533 / 281474976710656 : ℚ)
      * 2 ^ ((52 : ℤ) - 5)) = 4691249611844266 := by
    have hfl : ⌊(9382499223688533 / 281474976710656 : ℚ) * 2 ^ ((52 : ℤ) - 5)⌋
        = 4691249611844266 := by norm_num
    unfold roundHalfEven
    rw [hfl]
    norm_num
  have := fl_eval (e := 5) (by norm_num) (by norm_num) (by norm_num) hm
  rw [this]
  norm_num

theorem fsub_a1_frameTime :
    fsub (2345624805922133 / 70368744177664) frameTime
      = 4691249611844265 / 281474976710656 := by
  unfold fsub
  rw [frameTime_eval]
  have hd : (2345624805922133 / 70368744177664 : ℚ)
      - 4691249611844267 / 281474976710656
      = 4691249611844265 / 281474976710656 := by norm_num
  rw [hd]
  have hm : roundHalfEven ((4691249611844265 / 281474976710656 : ℚ)
      * 2 ^ ((52 : ℤ) - 4)) = 4691249611844265 := by
    have hfl : ⌊(4691249611844265 / 281474976710656 : ℚ) * 2 ^ ((52 : ℤ) - 4)⌋
        = 4691249611844265 := by norm_num
    unfold roundHalfEven
    rw [hfl]
    norm_num
  have := fl_eval (e := 4) (by norm_num) (by norm_num) (by norm_num) hm
  rw [this]
  norm_num

theorem fdiv_a2_frameTime :
    fdiv (4691249611844265 / 281474976710656) frameTime
      = 2251799813685247 / 2251799813685248 := by
  unfold fdiv
  rw [frameTime_eval]
  have hd : (4691249611844265 / 281474976710656 : ℚ)
      / (4691249611844267 / 281474976710656)
      = 4691249611844265 / 4691249611844267 := by norm_num
  rw [hd]
  have hm : roundHalfEven ((4691249611844265 / 4691249611844267 : ℚ)
      * 2 ^ ((52 : ℤ) - (-1))) = 9007199254740988 := by
    have hfl : ⌊(4691249611844265 / 4691249611844267 : ℚ) * 2 ^ ((52 : ℤ) - (-1))⌋
        = 9007199254740988 := by norm_num
    unfold roundHalfEven
    rw [hfl]
    norm_num
  have := fl_eval (e := -1) (by norm_num) (by norm_num) (by norm_num) hm
  rw [this]
  norm_num

/-- The full evaluation of one wake-up with accumulator `0` and clamped
elapsed time `50` ms: in binary64 arithmetic the fixed-update loop fires
exactly twice, the accumulator ends one unit-in-the-last-place below the
frame time, and the interpolation is `1 - 2⁻⁵¹`. -/
theorem gameTick_0_50_eval :
    gameTick 10 0 50
      = ⟨2, 2251799813685247 / 2251799813685248,
          4691249611844265 / 281474976710656⟩ := by
  have hmin : min (50 : ℚ) 100 = 50 := by norm_num
  have hc1 : frameTime ≤ 50 := by rw [frameTime_eval]; norm_num
  have hc2 : frameTime ≤ 2345624805922133 / 70368744177664 := by
    rw [frameTime_eval]; norm_num
  have hc3 : ¬(frameTime ≤ 4691249611844265 / 281474976710656) := by
    rw [frameTime_eval]; norm_num
  have step : ∀ (fuel : Nat) (acc : ℚ), frameTime ≤ acc →
      spinFixed frameTime (fuel + 1) acc
        = ((spinFixed frameTime fuel (fsub acc frameTime)).1 + 1,
           (spinFixed frameTime fuel (fsub acc frameTime)).2) := by
    intro fuel acc h
    show (if frameTime ≤ acc then _ else _) = _
    rw [if_pos h]
  have stop : ∀ (fuel : Nat) (acc : ℚ), ¬frameTime ≤ acc →
      spinFixed frameTime (fuel + 1) acc = (0, acc) := by
    intro fuel acc h
    show (if frameTime ≤ acc then _ else _) = _
    rw [if_neg h]
  have s8 : spinFixed frameTime 8 (4691249611844265 / 281474976710656 : ℚ)
      = (0, 4691249611844265 / 281474976710656) := stop 7 _ hc3
  have s9 : spinFixed frameTime 9 (2345624805922133 / 70368744177664 : ℚ)
      = (1, 4691249611844265 / 281474976710656) := by
    have h := step 8 (2345624805922133 / 70368744177664 : ℚ) hc2
    rw [fsub_a1_frameTime, s8] at h
    exact h
  have s10 : spinFixed frameTime 10 50
      = (2, 4691249611844265 / 281474976710656) := by
    have h := step 9 50 hc1
    rw [fsub_50_frameTime, s9] at h
    exact h
  unfold gameTick
  rw [hmin, fadd_0_50, s10]
  show (⟨2, fdiv (4691249611844265 / 281474976710656) frameTime,
    4691249611844265 / 281474976710656⟩ : TickResult) = _
  rw [fdiv_a2_frameTime]

/-- C1, counterexample to the claim as stated: with the frame duration
`1000/60` computed in binary64, a wake-up with clamped elapsed 50 ms and
accumulator 0 fires `fixedUpdate` only twice (not three times) and the
interpolation is ≈ 1 (not ≈ 0): `3 · fl(1000/60) > 50`, so the third
iteration's loop condition fails by one ulp. -/
theorem C1_two_firings_counterexample :
    (gameTick 10 0 50).fixedCount ≠ 3 ∧
    ¬((gameTick 10 0 50).interpolation < 1 / 2) ∧
    (gameTick 10 0 50).accumulator < frameTime := by
  rw [gameTick_0_50_eval]
  refine ⟨by norm_num, by norm_num, ?_⟩
  rw [frameTime_eval]
  norm_num

/-- C1 (amended): on a wake-up with clamped elapsed time 50 ms and
accumulator 0, the loop emits `fixedUpdate` exactly 2 times and the
interpolation passed to `update`/`render` is `1 - 2⁻⁵¹` ≈ 1: in the binary64
arithmetic the source runs in, `fl(1000/60)` rounds up, so after two
subtractions the accumulator is one ulp below the frame duration (in exact
arithmetic it would be 3 firings and interpolation 0).  The final
accumulator is below the frame duration, so the loop exited normally. -/
theorem C1_accumulator_binary64 :
    (gameTick 10 0 50).fixedCount = 2 ∧
    (gameTick 10 0 50).interpolation = 2251799813685247 / 2251799813685248 ∧
    (gameTick 10 0 50).accumulator < frameTime ∧
    (1 : ℚ) - 1 / 2 ^ 51 = 2251799813685247 / 2251799813685248 := by
  rw [gameTick_0_50_eval]
  refine ⟨rfl, rfl, ?_, by norm_num⟩
  rw [frameTime_eval]
  norm_num

/-! ## InputManager: press / hold / release inference

The raw-keystream handler and its `setTimeout(100)` release timers, as a
discrete-event simulation.  Each raw signal maps the key
(`keyMappings.get(k) || k`), adds it to the pressed set and fires `keydown`
if it was absent, and schedules an *uncancelled* deletion timer 100 ms
later; a firing timer deletes the key and fires `keyup` if the key is still
present.  `runInput` processes, in time order (a timer due at the same
instant as a signal fires first), every event up to a query horizon `T`. -/

structure InputSim where
  keys : List String
  keyMappings : List (String × String)
  timers : List (Nat × String)
  log : List (Nat × Bool × String)
  quit : Bool
deriving DecidableEq

def initInput (mappings : List (String × String)) : InputSim :=
  ⟨[], mappings, [], [], false⟩

/-- `this.keyMappings.get(keyStr) || keyStr` (an empty mapped name is falsy
in JS, falling back to the raw key). -/
def mappedName (mappings : List (String × String)) (raw : String) : String :=
  match mapGet mappings raw with
  | some m => if m = "" then raw else m
  | none => raw

/-- The `stdin.on('data')` handler at time `t` with raw key `raw`. -/
def onData (s : InputSim) (t : Nat) (raw : String) : InputSim :=
  if s.quit then s
  else if raw = "\x03" then { s with quit := true }
  else
    if mappedName s.keyMappings raw ∈ s.keys then
      { s with timers := s.timers ++ [(t + 100, mappedName s.keyMappings raw)] }
    else
      { s with
        keys := mappedName s.keyMappings raw :: s.keys
        log := s.log ++ [(t, true, mappedName s.keyMappings raw)]
        timers := s.timers ++ [(t + 100, mappedName s.keyMappings raw)] }

/-- One `setTimeout` callback firing at time `t` for mapped key `k`. -/
def onTimeout (s : InputSim) (t : Nat) (k : String) : InputSim :=
  if s.quit then s
  else if k ∈ s.keys then
    { s with keys := setDel s.keys k, log := s.log ++ [(t, false, k)] }
  else s

/-- Process the next due event (earliest of head signal and head timer; a
timer due at the same instant as a signal fires first) while its time is
within the horizon `T`.  `fuel` bounds the steps; each step either consumes
a signal (scheduling at most one timer, measure `2·|signals| + |timers|`
drops by one) or consumes a timer, so `runInput`'s initial fuel of exactly
that measure is never exhausted before both queues are drained. -/
def runInputAux : Nat → List (Nat × String) → InputSim → Nat → InputSim
  | 0, _, s, _ => s
  | fuel + 1, sigs, s, T =>
    match sigs, s.timers with
    | [], [] => s
    | [], (tf, k) :: trest =>
      if tf ≤ T then runInputAux fuel [] (onTimeout { s with timers := trest } tf k) T
      else s
    | (ts, raw) :: srest, [] =>
      if ts ≤ T then runInputAux fuel srest (onData s ts raw) T else s
    | (ts, raw) :: srest, (tf, k) :: trest =>
      if tf ≤ ts then
        if tf ≤ T then
          runInputAux fuel ((ts, raw) :: srest)
            (onTimeout { s with timers := trest } tf k) T
        else s
      else
        if ts ≤ T then runInputAux fuel srest (onData s ts raw) T else s

def runInput (sigs : List (Nat × String)) (s : InputSim) (T : Nat) : InputSim :=
  runInputAux (2 * sigs.length + s.timers.length) sigs s T

/-- `isKeyPressed(key)` as observed at time `T`. -/
def isKeyPressedAt (mappings : List (String × String))
    (sigs : List (Nat × String)) (key : String) (T : Nat) : Bool :=
  key ∈ (runInput sigs (initInput mappings) T).keys

/-- The `keydown`/`keyup` emissions up to time `T`. -/
def inputLogAt (mappings : List (String × String))
    (sigs : List (Nat × String)) (T : Nat) : List (Nat × Bool × String) :=
  (runInput sigs (initInput mappings) T).log

/-- C3, counterexample to the claim as stated: map `w → p1_up`, raw signals
at `t = 0` and `t = 90`.  The repeat at 90 ms arrives well inside the 100 ms
hold window, so by the claim the window is re-armed and the key should still
read pressed at `t = 150` (release only at 190).  In the code, the timer
scheduled by the *first* signal is never cancelled: it fires at `t = 100`,
deletes the key and emits `keyup`, so at `t = 150` the key reads released —
the hold window is not re-armed by repeats. -/
theorem C3_no_rearm_counterexample :
    isKeyPressedAt [("w", "p1_up")] [(0, "w"), (90, "w")] "p1_up" 150 = false ∧
    inputLogAt [("w", "p1_up")] [(0, "w"), (90, "w")] 200
      = [(0, true, "p1_up"), (100, false, "p1_up")] := by
  exact ⟨by decide, by decide⟩



/-! ### The hold window is governed by the earliest pending timer

General lemmas about `runInputAux`, leading to the universal amended C3:
while the horizon lies before every pending deletion timer, the run only
processes signals; with all signals due before every timer, the run
processes all signals and then drains timers; a drain from a released state
is a no-op, and a drain from a pressed state releases at the earliest
timer. -/

theorem onData_eq_of_live {s : InputSim} {t : Nat} {raw : String}
    (hq : s.quit = false) (hraw : raw ≠ "\x03") :
    onData s t raw =
      if mappedName s.keyMappings raw ∈ s.keys then
        { s with timers := s.timers ++ [(t + 100, mappedName s.keyMappings raw)] }
      else
        { s with
          keys := mappedName s.keyMappings raw :: s.keys
          log := s.log ++ [(t, true, mappedName s.keyMappings raw)]
          timers := s.timers ++ [(t + 100, mappedName s.keyMappings raw)] } := by
  unfold onData
  simp [hq, hraw]

theorem onData_quit {s : InputSim} {t : Nat} {raw : String}
    (hq : s.quit = false) (hraw : raw ≠ "\x03") :
    (onData s t raw).quit = false := by
  rw [onData_eq_of_live hq hraw]
  split <;> exact hq

theorem onData_keyMappings {s : InputSim} {t : Nat} {raw : String}
    (hq : s.quit = false) (hraw : raw ≠ "\x03") :
    (onData s t raw).keyMappings = s.keyMappings := by
  rw [onData_eq_of_live hq hraw]
  split <;> rfl

theorem onData_timers {s : InputSim} {t : Nat} {raw : String}
    (hq : s.quit = false) (hraw : raw ≠ "\x03") :
    (onData s t raw).timers
      = s.timers ++ [(t + 100, mappedName s.keyMappings raw)] := by
  rw [onData_eq_of_live hq hraw]
  split <;> rfl

/-- While the horizon `T` lies strictly before every pending timer (and
before `signal time + 100` for every signal, so the timers a processed
signal schedules stay beyond `T` too), the run processes exactly the
leading signals due by `T` and fires no timer. -/
theorem runAux_before_timers (T : Nat) :
    ∀ (sigs : List (Nat × String)) (fuel : Nat) (s : InputSim),
      s.quit = false →
      (∀ tp ∈ s.timers, T < tp.1) →
      (∀ p ∈ sigs, T < p.1 + 100 ∧ p.2 ≠ "\x03") →
      2 * sigs.length + s.timers.length ≤ fuel →
      runInputAux fuel sigs s T
        = (sigs.takeWhile fun p => p.1 ≤ T).foldl
            (fun s' p => onData s' p.1 p.2) s := by
  intro sigs
  induction sigs with
  | nil =>
    intro fuel s hq htp hps hfuel
    show runInputAux fuel [] s T = s
    cases fuel with
    | zero => rfl
    | succ f =>
      cases h : s.timers with
      | nil => simp only [runInputAux, h]
      | cons tp trest =>
        obtain ⟨tf, k⟩ := tp
        have htf : T < tf := htp (tf, k) (by rw [h]; exact List.mem_cons_self _ _)
        simp only [runInputAux, h]
        rw [if_neg (by omega)]
  | cons p rest ih =>
    intro fuel s hq htp hps hfuel
    obtain ⟨ts, raw⟩ := p
    obtain ⟨f, rfl⟩ : ∃ f, fuel = f + 1 := ⟨fuel - 1, by simp at hfuel; omega⟩
    have hraw : raw ≠ "\x03" := (hps (ts, raw) (List.mem_cons_self _ _)).2
    by_cases hts : ts ≤ T
    · have hcall : runInputAux (f + 1) ((ts, raw) :: rest) s T
          = runInputAux f rest (onData s ts raw) T := by
        cases h : s.timers with
        | nil =>
          simp only [runInputAux, h]
          rw [if_pos hts]
        | cons tp trest =>
          obtain ⟨tf, k⟩ := tp
          have htf : T < tf := htp (tf, k) (by rw [h]; exact List.mem_cons_self _ _)
          simp only [runInputAux, h]
          rw [if_neg (by omega), if_pos hts]
      rw [hcall]
      rw [ih f (onData s ts raw) (onData_quit hq hraw) ?_ ?_ ?_]
      · rw [List.takeWhile_cons_of_pos (by simpa using hts), List.foldl_cons]
      · intro tp htp'
        rw [onData_timers hq hraw] at htp'
        rcases List.mem_append.mp htp' with htp' | htp'
        · exact htp tp htp'
        · have : tp = (ts + 100, mappedName s.keyMappings raw) := by simpa using htp'
          rw [this]
          exact (hps (ts, raw) (List.mem_cons_self _ _)).1
      · intro q hq'
        exact hps q (List.mem_cons_of_mem _ hq')
      · have hlen : (onData s ts raw).timers.length = s.timers.length + 1 := by
          rw [onData_timers hq hraw]
          simp
        simp only [List.length_cons] at hfuel
        omega
    · have hstop : runInputAux (f + 1) ((ts, raw) :: rest) s T = s := by
        cases h : s.timers with
        | nil =>
          simp only [runInputAux, h]
          rw [if_neg hts]
        | cons tp trest =>
          obtain ⟨tf, k⟩ := tp
          have htf : T < tf := htp (tf, k) (by rw [h]; exact List.mem_cons_self _ _)
          simp only [runInputAux, h]
          by_cases hcmp : tf ≤ ts
          · rw [if_pos hcmp, if_neg (by omega)]
          · rw [if_neg hcmp, if_neg hts]
      rw [hstop, List.takeWhile_cons_of_neg (by simpa using hts)]
      rfl

/-- When every signal is due by `T`, precedes every pending timer, and any
two signals are less than 100 ms apart (so no signal falls behind a timer
scheduled by another), the run processes all signals first and then drains
timers from the resulting state. -/
theorem runAux_signals_first (T : Nat) :
    ∀ (sigs : List (Nat × String)) (fuel : Nat) (s : InputSim),
      s.quit = false →
      (∀ p ∈ sigs, p.1 ≤ T ∧ p.2 ≠ "\x03") →
      (∀ p ∈ sigs, ∀ tp ∈ s.timers, p.1 < tp.1) →
      (∀ p ∈ sigs, ∀ q ∈ sigs, q.1 < p.1 + 100) →
      2 * sigs.length + s.timers.length ≤ fuel →
      ∃ fuel',
        (sigs.foldl (fun s' p => onData s' p.1 p.2) s).timers.length ≤ fuel' ∧
        runInputAux fuel sigs s T
          = runInputAux fuel' []
              (sigs.foldl (fun s' p => onData s' p.1 p.2) s) T := by
  intro sigs
  induction sigs with
  | nil =>
    intro fuel s hq hps hpt hpq hfuel
    exact ⟨fuel, by simpa using hfuel, rfl⟩
  | cons p rest ih =>
    intro fuel s hq hps hpt hpq hfuel
    obtain ⟨ts, raw⟩ := p
    obtain ⟨f, rfl⟩ : ∃ f, fuel = f + 1 := ⟨fuel - 1, by simp at hfuel; omega⟩
    have hraw : raw ≠ "\x03" := (hps (ts, raw) (List.mem_cons_self _ _)).2
    have hts : ts ≤ T := (hps (ts, raw) (List.mem_cons_self _ _)).1
    have hstep : runInputAux (f + 1) ((ts, raw) :: rest) s T
        = runInputAux f rest (onData s ts raw) T := by
      cases h : s.timers with
      | nil =>
        simp only [runInputAux, h]
        rw [if_pos hts]
      | cons tp trest =>
        obtain ⟨tf, k⟩ := tp
        have htf : ts < tf := hpt (ts, raw) (List.mem_cons_self _ _) (tf, k)
          (by rw [h]; exact List.mem_cons_self _ _)
        simp only [runInputAux, h]
        rw [if_neg (by omega), if_pos hts]
    rw [hstep, List.foldl_cons]
    refine ih f (onData s ts raw) (onData_quit hq hraw) ?_ ?_ ?_ ?_
    · intro q hq'
      exact hps q (List.mem_cons_of_mem _ hq')
    · intro q hq' tp htp'
      rw [onData_timers hq hraw] at htp'
      rcases List.mem_append.mp htp' with htp' | htp'
      · exact hpt q (List.mem_cons_of_mem _ hq') tp htp'
      · have : tp = (ts + 100, mappedName s.keyMappings raw) := by simpa using htp'
        rw [this]
        exact hpq (ts, raw) (List.mem_cons_self _ _) q (List.mem_cons_of_mem _ hq')
    · intro q hq' q' hq''
      exact hpq q (List.mem_cons_of_mem _ hq') q' (List.mem_cons_of_mem _ hq'')
    · have hlen : (onData s ts raw).timers.length = s.timers.length + 1 := by
        rw [onData_timers hq hraw]
        simp
      simp only [List.length_cons] at hfuel
      omega

/-- While the key is already held, further signals of the same raw key
change nothing but append their (uncancelled) deletion timers. -/
theorem foldl_onData_held (raw k : String) (hraw : raw ≠ "\x03") :
    ∀ (ps : List (Nat × String)) (s : InputSim),
      s.quit = false → mappedName s.keyMappings raw = k → k ∈ s.keys →
      (∀ p ∈ ps, p.2 = raw) →
      ps.foldl (fun s' p => onData s' p.1 p.2) s
        = { s with timers := s.timers ++ ps.map fun p => (p.1 + 100, k) } := by
  intro ps
  induction ps with
  | nil =>
    intro s _ _ _ _
    simp
  | cons p rest ih =>
    intro s hq hm hk hps
    obtain ⟨t, praw⟩ := p
    have hpr : praw = raw := hps (t, praw) (List.mem_cons_self _ _)
    rw [show ((t, praw) :: rest) = ((t, raw) :: rest) by rw [hpr], List.foldl_cons]
    have hd : onData s t raw = { s with timers := s.timers ++ [(t + 100, k)] } := by
      rw [onData_eq_of_live hq hraw, hm, if_pos hk]
    rw [hd]
    rw [ih { s with timers := s.timers ++ [(t + 100, k)] } hq hm hk
      (fun q hq' => hps q (List.mem_cons_of_mem _ hq'))]
    simp

/-- Draining timers from a released state is a no-op on keys and log. -/
theorem runAux_drain_released (T : Nat) :
    ∀ (fuel : Nat) (s : InputSim),
      s.quit = false → s.keys = [] → s.timers.length ≤ fuel →
      (runInputAux fuel [] s T).keys = [] ∧
      (runInputAux fuel [] s T).log = s.log := by
  intro fuel
  induction fuel with
  | zero =>
    intro s hq hk hf
    exact ⟨hk, rfl⟩
  | succ f ih =>
    intro s hq hk hf
    cases h : s.timers with
    | nil =>
      simp only [runInputAux, h]
      exact ⟨hk, trivial⟩
    | cons tp trest =>
      obtain ⟨tf, k⟩ := tp
      simp only [runInputAux, h]
      by_cases htf : tf ≤ T
      · rw [if_pos htf]
        have hnoop : onTimeout { s with timers := trest } tf k
            = { s with timers := trest } := by
          unfold onTimeout
          simp [hq, hk]
        rw [hnoop]
        refine ih { s with timers := trest } hq hk ?_
        have := congrArg List.length h
        simp only [List.length_cons] at this
        simp only [this] at hf
        simp
        omega
      · rw [if_neg htf]
        exact ⟨hk, rfl⟩

/-- Draining timers from a pressed state whose earliest pending timer is due
releases the key exactly at that timer and emits one `keyup`; the later
timers are no-ops. -/
theorem runAux_drain_release (T fuel : Nat) (s : InputSim) (tf : Nat) (k : String)
    (trest : List (Nat × String)) (hq : s.quit = false) (hk : s.keys = [k])
    (ht : s.timers = (tf, k) :: trest) (htf : tf ≤ T)
    (hf : s.timers.length ≤ fuel) :
    (runInputAux fuel [] s T).keys = [] ∧
    (runInputAux fuel [] s T).log = s.log ++ [(tf, false, k)] := by
  obtain ⟨f, rfl⟩ : ∃ f, fuel = f + 1 := by
    refine ⟨fuel - 1, ?_⟩
    rw [ht] at hf
    simp at hf
    omega
  simp only [runInputAux, ht]
  rw [if_pos htf]
  have hrel : onTimeout { s with timers := trest } tf k
      = { s with keys := [], timers := trest,
                 log := s.log ++ [(tf, false, k)] } := by
    unfold onTimeout
    simp [hq, hk, setDel]
  rw [hrel]
  refine runAux_drain_released T f _ hq rfl ?_
  rw [ht] at hf
  simp only [List.length_cons] at hf
  simp
  omega

/-- C3 (amended), universal: for every key mapping table, every raw key
`raw` (other than the interrupt byte) with logical name `k`, every first
signal time `t0` and every collection of repeat signals of the same raw key
inside the hold window `(t0, t0 + 100)`: before `t0` the key reads released
and nothing has fired; from the first signal on, `isKeyPressed(k)` is true
immediately and throughout `[t0, t0 + 100)` with `keydown` having fired
exactly once (at `t0`); and from `t0 + 100` on the key reads released with
`keyup` fired exactly at `t0 + 100` — each signal's 100 ms deletion timer is
never cancelled, so the earliest timer releases the key and the hold window
is NOT re-armed by repeats. -/
theorem C3_hold_window_not_rearmed
    (mappings : List (String × String)) (raw k : String)
    (hraw : raw ≠ "\x03") (hk : mappedName mappings raw = k)
    (t0 : Nat) (rest : List (Nat × String))
    (hraws : ∀ p ∈ rest, p.2 = raw)
    (hafter : ∀ p ∈ rest, t0 < p.1)
    (hwin : ∀ p ∈ rest, p.1 < t0 + 100) :
    (∀ T, T < t0 →
      isKeyPressedAt mappings ((t0, raw) :: rest) k T = false ∧
      inputLogAt mappings ((t0, raw) :: rest) T = []) ∧
    (∀ T, t0 ≤ T → T < t0 + 100 →
      isKeyPressedAt mappings ((t0, raw) :: rest) k T = true ∧
      inputLogAt mappings ((t0, raw) :: rest) T = [(t0, true, k)]) ∧
    (∀ T, t0 + 100 ≤ T →
      isKeyPressedAt mappings ((t0, raw) :: rest) k T = false ∧
      inputLogAt mappings ((t0, raw) :: rest) T
        = [(t0, true, k), (t0 + 100, false, k)]) := by
  have htimers0 : ∀ tp ∈ (initInput mappings).timers, ∀ c : Prop, c := by
    intro tp h
    simp [initInput] at h
  have hs1 : onData (initInput mappings) t0 raw
      = ⟨[k], mappings, [(t0 + 100, k)], [(t0, true, k)], false⟩ := by
    rw [onData_eq_of_live rfl hraw]
    simp [initInput, hk]
  refine ⟨?_, ?_, ?_⟩
  · intro T hT
    have hA := runAux_before_timers T ((t0, raw) :: rest)
      (2 * ((t0, raw) :: rest).length + (initInput mappings).timers.length)
      (initInput mappings) rfl (fun tp htp => htimers0 tp htp _) ?_ (le_refl _)
    · have htw : List.takeWhile (fun p => p.1 ≤ T) ((t0, raw) :: rest)
          = [] := List.takeWhile_cons_of_neg (by simp; omega)
      rw [htw] at hA
      unfold isKeyPressedAt inputLogAt runInput
      rw [hA]
      exact ⟨by simp [initInput], by simp [initInput]⟩
    · intro p hp
      rcases List.mem_cons.mp hp with hp | hp
      · rw [hp]
        exact ⟨by omega, hraw⟩
      · have h1 := hafter p hp
        exact ⟨by omega, by rw [hraws p hp]; exact hraw⟩
  · intro T hT1 hT2
    have hA := runAux_before_timers T ((t0, raw) :: rest)
      (2 * ((t0, raw) :: rest).length + (initInput mappings).timers.length)
      (initInput mappings) rfl (fun tp htp => htimers0 tp htp _) ?_ (le_refl _)
    · rw [List.takeWhile_cons_of_pos (by simpa using hT1), List.foldl_cons, hs1] at hA
      rw [foldl_onData_held raw k hraw _ _ rfl hk (by simp)
        (fun p hp => hraws p ((List.takeWhile_sublist _).subset hp))] at hA
      unfold isKeyPressedAt inputLogAt runInput
      rw [hA]
      exact ⟨by simp, rfl⟩
    · intro p hp
      rcases List.mem_cons.mp hp with hp | hp
      · rw [hp]
        exact ⟨by omega, hraw⟩
      · have h1 := hafter p hp
        exact ⟨by omega, by rw [hraws p hp]; exact hraw⟩
  · intro T hT
    have hdue : ∀ p ∈ (t0, raw) :: rest, p.1 ≤ T ∧ p.2 ≠ "\x03" := by
      intro p hp
      rcases List.mem_cons.mp hp with hp | hp
      · rw [hp]
        exact ⟨by omega, hraw⟩
      · have h1 := hwin p hp
        exact ⟨by omega, by rw [hraws p hp]; exact hraw⟩
    have hclose : ∀ p ∈ (t0, raw) :: rest, ∀ q ∈ (t0, raw) :: rest,
        q.1 < p.1 + 100 := by
      intro p hp q hq'
      have hp1 : t0 ≤ p.1 := by
        rcases List.mem_cons.mp hp with hp | hp
        · rw [hp]
        · exact (hafter p hp).le
      rcases List.mem_cons.mp hq' with hq' | hq'
      · rw [hq']
        show t0 < p.1 + 100
        omega
      · have := hwin q hq'
        omega
    obtain ⟨fuel', hflen, hrun⟩ := runAux_signals_first T ((t0, raw) :: rest)
      (2 * ((t0, raw) :: rest).length + (initInput mappings).timers.length)
      (initInput mappings) rfl hdue (fun p hp tp htp => htimers0 tp htp _)
      hclose (le_refl _)
    have hsStar : ((t0, raw) :: rest).foldl (fun s' p => onData s' p.1 p.2)
        (initInput mappings)
        = ⟨[k], mappings, (t0 + 100, k) :: rest.map (fun p => (p.1 + 100, k)),
           [(t0, true, k)], false⟩ := by
      rw [List.foldl_cons, hs1]
      rw [foldl_onData_held raw k hraw rest _ rfl hk (by simp) hraws]
      simp
    rw [hsStar] at hrun hflen
    obtain ⟨hkeys, hlog⟩ := runAux_drain_release T fuel'
      ⟨[k], mappings, (t0 + 100, k) :: rest.map (fun p => (p.1 + 100, k)),
       [(t0, true, k)], false⟩ (t0 + 100) k (rest.map fun p => (p.1 + 100, k))
      rfl rfl rfl hT hflen
    unfold isKeyPressedAt inputLogAt runInput
    rw [hrun]
    refine ⟨by rw [hkeys]; simp, by rw [hlog]; rfl⟩

/-- Witness for `C3_hold_window_not_rearmed` at the spec's own scenario:
`mapKey('w','p1_up')`, raw `w` at `t = 0`, repeat at `t = 90`. -/
theorem C3_hold_window_not_rearmed_witness :
    (("w" : String) ≠ "\x03" ∧ mappedName [("w", "p1_up")] "w" = "p1_up" ∧
     (∀ p ∈ [((90 : Nat), "w")], p.2 = "w") ∧
     (∀ p ∈ [((90 : Nat), "w")], 0 < p.1) ∧
     (∀ p ∈ [((90 : Nat), "w")], p.1 < 0 + 100)) ∧
    ((∀ T, T < 0 →
       isKeyPressedAt [("w", "p1_up")] [(0, "w"), (90, "w")] "p1_up" T = false ∧
       inputLogAt [("w", "p1_up")] [(0, "w"), (90, "w")] T = []) ∧
     (∀ T, 0 ≤ T → T < 0 + 100 →
       isKeyPressedAt [("w", "p1_up")] [(0, "w"), (90, "w")] "p1_up" T = true ∧
       inputLogAt [("w", "p1_up")] [(0, "w"), (90, "w")] T = [(0, true, "p1_up")]) ∧
     (∀ T, 0 + 100 ≤ T →
       isKeyPressedAt [("w", "p1_up")] [(0, "w"), (90, "w")] "p1_up" T = false ∧
       inputLogAt [("w", "p1_up")] [(0, "w"), (90, "w")] T
         = [(0, true, "p1_up"), (0 + 100, false, "p1_up")])) :=
  ⟨⟨by decide, by decide, by decide, by decide, by decide⟩,
   C3_hold_window_not_rearmed [("w", "p1_up")] "w" "p1_up" (by decide) (by decide)
     0 [(90, "w")] (by decide) (by decide) (by decide)⟩

end Kenji
